import Mathlib

/-!
# RRMultiPathScheduler (demo/attempt1.h)

A shallow embedding of the min-RTT round-robin multipath scheduler.

* `std::set<int32_t>` is a strictly ascending `List Int`; `std::map<fw::ID, V>` is a list of
  pairs with strictly ascending keys; `std::multimap<Duration, V>` is a list of pairs with
  non-decreasing keys, equal keys in insertion order.  The container operations below do
  what the C++ operations do on such lists; separate lemmas show that they keep the lists
  ascending.
* The session objects (`SessionStreamController`) and the upstream handler
  (`MultiPathSchedulerHandler`) are declared outside this file of the repository. Their
  member functions are the fields of `Env`, taken as parameters.
* Dereferencing a null `shared_ptr` and converting an infinite `double` to `int` are
  undefined behaviour: the functions that can run into them return `Option`, with `none`
  for undefined behaviour. Integer conversions and 32-bit arithmetic wrap around.
* Every operation also returns the list of calls it made on its collaborators.
-/

namespace RRMultiPathScheduler

/-!
Session identifiers (`fw::ID`, the ordered key of the session tables) are natural numbers.
Piece numbers (`DataNumber`, `int32_t`) are integers; they are stored and compared only.

Modelled from the spec: the class `Duration` is declared outside the sources; the spec
calls it a duration that is cast to integer milliseconds, with differences below 1 ms
possible. A `Duration` is an integer number of microseconds here, ordered as such.
-/

/-- Modelled from the spec: `Duration::ToMilliseconds()`, whole milliseconds of a
microsecond count (truncating). -/
def ToMilliseconds (d : Int) : Int := Int.tdiv d 1000

/-- The conversion `int(x)` of a 64-bit value to a 32-bit `int`. -/
def toInt (x : Int) : Int := (x + 2147483648) % 4294967296 - 2147483648

/-! ## Containers -/

/-- `std::set<int32_t>::emplace(x)` on an ascending list: no change when `x` is there. -/
def setInsert (x : Int) : List Int → List Int
  | [] => [x]
  | y :: ys =>
    if x < y then x :: y :: ys
    else if x = y then y :: ys
    else y :: setInsert x ys

/-- `s.insert(first, last)` and the `for (x : xs) s.emplace(x)` loops: the elements of `xs`
are inserted one after the other. -/
def setInsertRange (xs : List Int) (s : List Int) : List Int :=
  xs.foldl (fun acc x => setInsert x acc) s

/-- `std::map::find`: the value stored under `key`, `none` for `end()`. -/
def mapFind {V : Type} : List (Nat × V) → Nat → Option V
  | [], _ => none
  | (k, v) :: rest, key => if key = k then some v else mapFind rest key

/-- `m[key] = v`: replaces the value under `key` or inserts the pair at its place. -/
def mapAssign {V : Type} : List (Nat × V) → Nat → V → List (Nat × V)
  | [], key, v => [(key, v)]
  | (k, w) :: rest, key, v =>
    if key < k then (key, v) :: (k, w) :: rest
    else if key = k then (k, v) :: rest
    else (k, w) :: mapAssign rest key v

/-- `std::map::emplace(key, v)`: inserts the pair unless the key is already there. -/
def mapEmplace {V : Type} : List (Nat × V) → Nat → V → List (Nat × V)
  | [], key, v => [(key, v)]
  | (k, w) :: rest, key, v =>
    if key < k then (key, v) :: (k, w) :: rest
    else if key = k then (k, w) :: rest
    else (k, w) :: mapEmplace rest key v

/-- `m.erase(m.find(key))`: removes the entry stored under `key`. -/
def mapErase {V : Type} : List (Nat × V) → Nat → List (Nat × V)
  | [], _ => []
  | (k, w) :: rest, key => if key = k then rest else (k, w) :: mapErase rest key

/-- `std::multimap::emplace(d, v)`: the pair goes after every entry whose key is not
greater than `d`. -/
def mmEmplace {V : Type} (d : Int) (v : V) : List (Int × V) → List (Int × V)
  | [] => [(d, v)]
  | (k, w) :: rest => if d < k then (d, v) :: (k, w) :: rest else (k, w) :: mmEmplace d v rest

/-- `m_session_needdownloadpieceQ[sessionid].insert(vec.begin(), vec.end())`: `operator[]`
creates an empty set for a session that has none. -/
def queueInsert (q : List (Nat × List Int)) (sessionid : Nat) (vec : List Int) :
    List (Nat × List Int) :=
  mapAssign q sessionid (setInsertRange vec ((mapFind q sessionid).getD []))

/-! ## Collaborators and state -/

/-- The member functions of the collaborators, over a type `σ` of session states:
`CanRequestPktCnt`, `GetRtt`, `GetSessionId` and `DoRequestdata` of
`SessionStreamController` (`DoRequestdata` may change the session), and
`m_phandler.lock()`: `none` for an expired handler, otherwise the piece numbers that
`OnRequestDownloadPieces(n)` puts into the download queue before it returns. -/
structure Env (σ : Type) where
  CanRequestPktCnt : σ → Nat
  GetRtt : σ → Int
  GetSessionId : σ → Nat
  DoRequestdata : σ → Nat → List Int → Bool × σ
  handler : Option (Nat → List Int)

/-- A call made on a collaborator. -/
inductive Call where
  | OnRequestDownloadPieces (n : Nat)
  | DoRequestdata (sessionid : Nat) (pieces : List Int) (rt : Bool)
  deriving DecidableEq, Repr

/-- The data members of `RRMultiPathScheduler` and of its base class. `m_dlsessionmap`
holds `shared_ptr`s, `none` being a null pointer. An entry of `m_sortmmap` is the session
as it was when `SortSession` ran. -/
structure Scheduler (σ : Type) where
  m_dlsessionmap : List (Nat × Option σ)
  m_downloadQueue : List Int
  m_lostPiecesQueue : List Int
  m_session_needdownloadpieceQ : List (Nat × List Int)
  m_sortmmap : List (Int × σ)
  deriving DecidableEq, Repr

/-! ## Session lifecycle -/

/-- `OnSessionCreate` (lines 75-88). -/
def OnSessionCreate {σ : Type} (st : Scheduler σ) (sessionid : Nat) : Scheduler σ :=
  match mapFind st.m_session_needdownloadpieceQ sessionid with
  | some q =>
    { st with
      m_downloadQueue := setInsertRange q st.m_downloadQueue
      m_session_needdownloadpieceQ := mapAssign st.m_session_needdownloadpieceQ sessionid [] }
  | none =>
    { st with
      m_session_needdownloadpieceQ := mapAssign st.m_session_needdownloadpieceQ sessionid [] }

/-- `OnSessionDestory` (lines 90-108). -/
def OnSessionDestory {σ : Type} (st : Scheduler σ) (sessionid : Nat) : Scheduler σ :=
  match mapFind st.m_session_needdownloadpieceQ sessionid with
  | none => st
  | some q =>
    { st with
      m_downloadQueue := setInsertRange q st.m_downloadQueue
      m_session_needdownloadpieceQ := mapErase st.m_session_needdownloadpieceQ sessionid }

/-- The loop of `OnResetDownload` (lines 120-129): the download queue after every
non-empty session queue has been inserted into it. -/
def resetLoop : List (Nat × List Int) → List Int → List Int
  | [], dq => dq
  | (_, q) :: rest, dq => resetLoop rest (if q.isEmpty then dq else setInsertRange q dq)

/-- `OnResetDownload` (lines 110-131). -/
def OnResetDownload {σ : Type} (st : Scheduler σ) : Scheduler σ :=
  if st.m_session_needdownloadpieceQ.isEmpty then st
  else
    { st with
      m_downloadQueue := resetLoop st.m_session_needdownloadpieceQ st.m_downloadQueue
      m_session_needdownloadpieceQ := [] }

/-- `StopMultiPathScheduler` (lines 68-73): resets and returns `true`. -/
def StopMultiPathScheduler {σ : Type} (st : Scheduler σ) : Scheduler σ × Bool :=
  (OnResetDownload st, true)

/-- `OnTimedOut` (lines 204-215); `sessionid` is only logged. -/
def OnTimedOut {σ : Type} (st : Scheduler σ) (_sessionid : Nat) (pns : List Int) : Scheduler σ :=
  { st with m_lostPiecesQueue := setInsertRange pns st.m_lostPiecesQueue }

/-! ## Sending -/

/-- `DoSendSessionSubTask` (lines 239-285): the new state, `i32Result` and the calls made.
`none` when `m_dlsessionmap[sessionid]` is null (`operator[]` makes a null entry for an
unknown id) and is dereferenced. -/
def DoSendSessionSubTask {σ : Type} (E : Env σ) (st : Scheduler σ) (sessionid : Nat) :
    Option (Scheduler σ × Int × List Call) :=
  match mapFind st.m_session_needdownloadpieceQ sessionid with
  | none =>
    some ({ st with
            m_session_needdownloadpieceQ := mapAssign st.m_session_needdownloadpieceQ sessionid [] },
          -1, [])
  | some setNeedDlSubpiece =>
    if setNeedDlSubpiece.isEmpty then some (st, -1, [])
    else
      match mapFind st.m_dlsessionmap sessionid with
      | none => none
      | some none => none
      | some (some session) =>
        let u32CanSendCnt := E.CanRequestPktCnt session
        let vecSubpieces := setNeedDlSubpiece.take u32CanSendCnt
        let remaining := setNeedDlSubpiece.drop u32CanSendCnt
        let r := E.DoRequestdata session sessionid vecSubpieces
        let st1 : Scheduler σ :=
          { st with
            m_dlsessionmap := mapAssign st.m_dlsessionmap sessionid (some r.2)
            m_session_needdownloadpieceQ :=
              mapAssign st.m_session_needdownloadpieceQ sessionid remaining }
        if r.1 then some (st1, 0, [Call.DoRequestdata sessionid vecSubpieces true])
        else
          some ({ st1 with m_downloadQueue := setInsertRange remaining st1.m_downloadQueue },
                -1, [Call.DoRequestdata sessionid vecSubpieces false])

/-- The replenishment request of lines 172-184 and 323-334: when the download queue is
shorter than `need` and the handler is alive, `OnRequestDownloadPieces` is called with the
difference. Returns the download queue afterwards and the calls made. -/
def requestPieces {σ : Type} (E : Env σ) (dq : List Int) (need : Nat) :
    List Int × List Call :=
  if dq.length < need then
    match E.handler with
    | some h =>
      (setInsertRange (h (need - dq.length)) dq, [Call.OnRequestDownloadPieces (need - dq.length)])
    | none => (dq, [])
  else (dq, [])

/-- The assignment step of `DoSinglePathSchedule` (lines 186-197): up to `uni32DataReqCnt`
pieces leave the front of the download queue for the session's queue. -/
def singlePathAssign {σ : Type} (st : Scheduler σ) (sessionid : Nat) (uni32DataReqCnt : Nat) :
    Scheduler σ :=
  { st with
    m_downloadQueue := st.m_downloadQueue.drop uni32DataReqCnt
    m_session_needdownloadpieceQ :=
      queueInsert st.m_session_needdownloadpieceQ sessionid
        (st.m_downloadQueue.take uni32DataReqCnt) }

/-- `DoSinglePathSchedule` (lines 149-202): the new state, the returned `uint32_t`
(`-1` is 4294967295) and the calls made. -/
def DoSinglePathSchedule {σ : Type} (E : Env σ) (st : Scheduler σ) (sessionid : Nat) :
    Option (Scheduler σ × Nat × List Call) :=
  match mapFind st.m_dlsessionmap sessionid with
  | none =>
    some ({ st with m_dlsessionmap := mapAssign st.m_dlsessionmap sessionid none },
          4294967295, [])
  | some none => some (st, 4294967295, [])
  | some (some session) =>
    let uni32DataReqCnt := E.CanRequestPktCnt session
    if uni32DataReqCnt = 0 then some (st, 4294967295, [])
    else
      let req := requestPieces E st.m_downloadQueue uni32DataReqCnt
      let st1 := singlePathAssign { st with m_downloadQueue := req.1 } sessionid uni32DataReqCnt
      match DoSendSessionSubTask E st1 sessionid with
      | none => none
      | some (st2, _, calls) => some (st2, 0, req.2 ++ calls)

/-- `OnReceiveSubpieceData` (lines 217-224): the arguments other than the session id are
only logged and the status of the single-path pass is dropped. -/
def OnReceiveSubpieceData {σ : Type} (E : Env σ) (st : Scheduler σ) (sessionid : Nat) :
    Option (Scheduler σ × List Call) :=
  (DoSinglePathSchedule E st sessionid).map fun r => (r.1, r.2.2)

/-! ## The global pass -/

/-- The loop of `SortSession` (lines 230-235); `none` when a table entry is null. -/
def sortSessionLoop {σ : Type} (E : Env σ) :
    List (Nat × Option σ) → List (Int × σ) → Option (List (Int × σ))
  | [], sortmmap => some sortmmap
  | (_, none) :: _, _ => none
  | (_, some s) :: rest, sortmmap => sortSessionLoop E rest (mmEmplace (E.GetRtt s) s sortmmap)

/-- `SortSession` (lines 226-236) applied to `m_sortmmap`. -/
def SortSession {σ : Type} (E : Env σ) (st : Scheduler σ) : Option (Scheduler σ) :=
  (sortSessionLoop E st.m_dlsessionmap []).map fun m => { st with m_sortmmap := m }

/-- Step 1 of `FillUpSessionTask` (lines 291-303): the lost pieces go back to the download
queue and the lost queue is cleared. -/
def requeueLost {σ : Type} (st : Scheduler σ) : Scheduler σ :=
  { st with
    m_downloadQueue := setInsertRange st.m_lostPiecesQueue st.m_downloadQueue
    m_lostPiecesQueue := [] }

/-- Step 2 of `FillUpSessionTask` (lines 306-317): `toSendinEachSession`; `none` when a
table entry is null. -/
def surveyLoop {σ : Type} (E : Env σ) :
    List (Nat × Option σ) → List (Nat × Nat) → Option (List (Nat × Nat))
  | [], toSend => some toSend
  | (_, none) :: _, _ => none
  | (sessionId, some s) :: rest, toSend =>
    surveyLoop E rest (mapEmplace toSend sessionId (E.CanRequestPktCnt s))

/-- `totalSubpieceCnt` (lines 318-320): `std::accumulate` with the `int` seed `0` keeps a
32-bit sum, stored in a `uint32_t`. -/
def totalSubpieceCnt (toSend : List (Nat × Nat)) : Nat :=
  (toSend.foldl (fun total e => total + e.2) 0) % 4294967296

/-- The loop over `duration_tasknum_map` (lines 358-379): the position of `itr` in the
download queue of length `len`, starting from position `itr`.
With `f` and `c` the two 32-bit millisecond counts, `times = double(c) / double(f) - 1`.
For `f = 0` it is `+inf` when `0 < c` (its conversion to `int` is undefined) and `NaN` or
`-inf` otherwise (`times >= 1` is false). For `f ≠ 0` both conversions to `double` are
exact and the quotient of two 32-bit integers is below 2 by at least `2^-31` when it is
below 2, so `times >= 1` holds exactly when `c / f ≥ 2`, and then `int(times)` is the
truncated quotient less one. The `int` product `int(times) * bandwidth` is kept in 32
bits. -/
def advanceCursor (len : Nat) (curr_duration : Int) :
    List (Int × Nat) → Nat → Option Nat
  | [], itr => some itr
  | (former, tasknum) :: rest, itr =>
    let former_duration := toInt (ToMilliseconds former)
    let int_curr_duration := toInt (ToMilliseconds curr_duration)
    if former_duration = 0 then
      if 0 < int_curr_duration then none else some itr
    else if (0 < former_duration ∧ 2 * former_duration ≤ int_curr_duration) ∨
        (former_duration < 0 ∧ int_curr_duration ≤ 2 * former_duration) then
      let bandwidth := toInt tasknum
      let steps := toInt ((Int.tdiv int_curr_duration former_duration - 1) * bandwidth)
      let itr1 := min len (itr + steps.toNat)
      if itr1 = len then some itr1 else advanceCursor len curr_duration rest itr1
    else some itr

/-- Step 4 of `FillUpSessionTask` (lines 341-403): the walk over `m_sortmmap`, carrying
the download queue, the session queues and `duration_tasknum_map`. -/
def distributeLoop {σ : Type} (E : Env σ) (toSend : List (Nat × Nat)) :
    List (Int × σ) → List Int → List (Nat × List Int) →
    List (Int × Nat) → Option (List Int × List (Nat × List Int))
  | [], dq, q, _ => some (dq, q)
  | (curr_duration, sessStream) :: rest, dq, q, dtm =>
    let sessId := E.GetSessionId sessStream
    match mapFind q sessId with
    | none => distributeLoop E toSend rest dq q dtm
    | some _ =>
      match mapFind toSend sessId with
      | none => distributeLoop E toSend rest dq q dtm
      | some uni32DataReqCnt =>
        match advanceCursor dq.length curr_duration dtm 0 with
        | none => none
        | some itr =>
          let vecToSendpieceNums := (dq.drop itr).take uni32DataReqCnt
          distributeLoop E toSend rest
            (dq.take itr ++ (dq.drop itr).drop uni32DataReqCnt)
            (queueInsert q sessId vecToSendpieceNums)
            (mmEmplace curr_duration (uni32DataReqCnt - vecToSendpieceNums.length) dtm)

/-- The last loop of `FillUpSessionTask` (lines 406-413) over the session ids of
`m_session_needdownloadpieceQ`. -/
def sendLoop {σ : Type} (E : Env σ) : List Nat → Scheduler σ → Option (Scheduler σ × List Call)
  | [], st => some (st, [])
  | sessId :: rest, st =>
    match DoSendSessionSubTask E st sessId with
    | none => none
    | some (st1, _, calls) =>
      match sendLoop E rest st1 with
      | none => none
      | some (st2, calls2) => some (st2, calls ++ calls2)

/-- Steps 1 to 4 of `FillUpSessionTask` (lines 287-403), before anything is sent: the new
state and the calls made. -/
def fillDistribute {σ : Type} (E : Env σ) (st : Scheduler σ) :
    Option (Scheduler σ × List Call) :=
  let st1 := requeueLost st
  match surveyLoop E st1.m_dlsessionmap [] with
  | none => none
  | some toSendinEachSession =>
    let req := requestPieces E st1.m_downloadQueue (totalSubpieceCnt toSendinEachSession)
    match distributeLoop E toSendinEachSession st1.m_sortmmap req.1
        st1.m_session_needdownloadpieceQ [] with
    | none => none
    | some (dq, q) =>
      some ({ st1 with m_downloadQueue := dq, m_session_needdownloadpieceQ := q }, req.2)

/-- `FillUpSessionTask` (lines 287-415). -/
def FillUpSessionTask {σ : Type} (E : Env σ) (st : Scheduler σ) :
    Option (Scheduler σ × List Call) :=
  match fillDistribute E st with
  | none => none
  | some (st1, calls) =>
    match sendLoop E (st1.m_session_needdownloadpieceQ.map Prod.fst) st1 with
    | none => none
    | some (st2, calls2) => some (st2, calls ++ calls2)

/-- `DoMultiPathSchedule` (lines 133-147). -/
def DoMultiPathSchedule {σ : Type} (E : Env σ) (st : Scheduler σ) :
    Option (Scheduler σ × List Call) :=
  if st.m_session_needdownloadpieceQ.isEmpty then some (st, [])
  else
    match SortSession E st with
    | none => none
    | some st1 => FillUpSessionTask E st1

/-! ## A concrete session type for examples -/

/-- A session whose window shrinks by what it is asked to send and whose sends succeed or
fail as `sendOk` says. -/
structure SimSession where
  sessionId : Nat
  rtt : Int
  wnd : Nat
  sendOk : Bool
  deriving DecidableEq, Repr

/-- The collaborators over `SimSession`, with a handler that supplies nothing. -/
def simEnv : Env SimSession where
  CanRequestPktCnt := fun s => s.wnd
  GetRtt := fun s => s.rtt
  GetSessionId := fun s => s.sessionId
  DoRequestdata := fun s _ pieces => (s.sendOk, { s with wnd := s.wnd - pieces.length })
  handler := some fun _ => []

/-- The collaborators over `SimSession` when every send succeeds, with a handler that
supplies nothing. -/
def okEnv : Env SimSession where
  CanRequestPktCnt := fun s => s.wnd
  GetRtt := fun s => s.rtt
  GetSessionId := fun s => s.sessionId
  DoRequestdata := fun s _ pieces => (true, { s with wnd := s.wnd - pieces.length })
  handler := some fun _ => []

/-! ## Invariants of the containers -/

/-- The container invariants of the C++ types: the three `std::set`s are strictly
ascending and the two `std::map`s have strictly ascending keys. -/
def WellFormed {σ : Type} (st : Scheduler σ) : Prop :=
  st.m_downloadQueue.Pairwise (· < ·) ∧
  st.m_lostPiecesQueue.Pairwise (· < ·) ∧
  st.m_session_needdownloadpieceQ.Pairwise (fun a b => a.1 < b.1) ∧
  (∀ e ∈ st.m_session_needdownloadpieceQ, e.2.Pairwise (· < ·)) ∧
  st.m_dlsessionmap.Pairwise (fun a b => a.1 < b.1)

instance {σ : Type} (st : Scheduler σ) : Decidable (WellFormed st) := by
  unfold WellFormed; infer_instance

/-- No piece number is in two places at once: the download queue and the lost queue share
none, a session queue shares none with either, and two session queues share none. -/
def Disjoint {σ : Type} (st : Scheduler σ) : Prop :=
  (∀ x ∈ st.m_downloadQueue, x ∉ st.m_lostPiecesQueue) ∧
  (∀ e ∈ st.m_session_needdownloadpieceQ,
    ∀ x ∈ e.2, x ∉ st.m_downloadQueue ∧ x ∉ st.m_lostPiecesQueue) ∧
  st.m_session_needdownloadpieceQ.Pairwise (fun a b => ∀ x ∈ a.2, x ∉ b.2)

instance {σ : Type} (st : Scheduler σ) : Decidable (Disjoint st) := by
  unfold Disjoint; infer_instance

/-- The `OnRequestDownloadPieces` arguments among the calls, in call order. -/
def requestedCounts : List Call → List Nat
  | [] => []
  | Call.OnRequestDownloadPieces n :: rest => n :: requestedCounts rest
  | Call.DoRequestdata _ _ _ :: rest => requestedCounts rest

/-- The batches handed to `DoRequestdata`, with the session id, in call order. -/
def sentBatches : List Call → List (Nat × List Int)
  | [] => []
  | Call.OnRequestDownloadPieces _ :: rest => sentBatches rest
  | Call.DoRequestdata sessionid pieces _ :: rest => (sessionid, pieces) :: sentBatches rest

/-- The sum of `CanRequestPktCnt()` over the sessions of the session table. -/
def tableCapacity {σ : Type} (E : Env σ) (table : List (Nat × Option σ)) : Nat :=
  (table.map fun e => match e.2 with
    | some s => E.CanRequestPktCnt s
    | none => 0).sum

/-- The invariant of the three piece containers in terms of `mapFind`: the containers are
ascending, and no piece number is in two of the download queue, the lost queue and the
session queues. -/
def QueuesInv (dq lost : List Int) (q : List (Nat × List Int)) : Prop :=
  dq.Pairwise (· < ·) ∧ lost.Pairwise (· < ·) ∧ q.Pairwise (fun a b => a.1 < b.1) ∧
  (∀ k s, mapFind q k = some s → s.Pairwise (· < ·)) ∧
  (∀ x ∈ dq, x ∉ lost) ∧
  (∀ k s, mapFind q k = some s → ∀ x ∈ s, x ∉ dq ∧ x ∉ lost) ∧
  (∀ a b sa sb, a ≠ b → mapFind q a = some sa → mapFind q b = some sb → ∀ x ∈ sa, x ∉ sb)

/-- A public operation of the scheduler with its arguments (the sequence number, piece
number and receive time of `OnReceiveSubpieceData` are only logged). -/
inductive Op where
  | OnSessionCreate (sessionid : Nat)
  | OnSessionDestory (sessionid : Nat)
  | OnResetDownload
  | DoMultiPathSchedule
  | DoSinglePathSchedule (sessionid : Nat)
  | OnTimedOut (sessionid : Nat) (pns : List Int)
  | OnReceiveSubpieceData (sessionid : Nat)
  deriving DecidableEq, Repr

/-- The state after a public operation; `none` when the operation runs into undefined
behaviour. -/
def runOp {σ : Type} (E : Env σ) (st : Scheduler σ) : Op → Option (Scheduler σ)
  | Op.OnSessionCreate sessionid => some (OnSessionCreate st sessionid)
  | Op.OnSessionDestory sessionid => some (OnSessionDestory st sessionid)
  | Op.OnResetDownload => some (OnResetDownload st)
  | Op.DoMultiPathSchedule => (DoMultiPathSchedule E st).map Prod.fst
  | Op.DoSinglePathSchedule sessionid => (DoSinglePathSchedule E st sessionid).map Prod.fst
  | Op.OnTimedOut sessionid pns => some (OnTimedOut st sessionid pns)
  | Op.OnReceiveSubpieceData sessionid => (OnReceiveSubpieceData E st sessionid).map Prod.fst

/-- An initial state: well-formed containers, the download queue and the lost queue share
no piece, and no session is tracked. -/
def InitialState {σ : Type} (st : Scheduler σ) : Prop :=
  WellFormed st ∧ (∀ x ∈ st.m_downloadQueue, x ∉ st.m_lostPiecesQueue) ∧
  st.m_session_needdownloadpieceQ = []

instance {σ : Type} (st : Scheduler σ) : Decidable (InitialState st) := by
  unfold InitialState; infer_instance

/-- The states reached from `init` by public operations whose circumstances satisfy `ok`.
Between two operations the owner of the session table may replace it (sessions come and
go, windows and round-trip times change); the collaborators `E` may differ from one
operation to the next. -/
inductive ReachableBy {σ : Type} (ok : Env σ → Scheduler σ → Op → Prop)
    (init : Scheduler σ) : Scheduler σ → Prop where
  | start : ReachableBy ok init init
  | table (st : Scheduler σ) (t : List (Nat × Option σ)) :
      ReachableBy ok init st → t.Pairwise (fun a b => a.1 < b.1) →
      ReachableBy ok init { st with m_dlsessionmap := t }
  | step (st st1 : Scheduler σ) (E : Env σ) (op : Op) :
      ReachableBy ok init st → ok E st op → runOp E st op = some st1 →
      ReachableBy ok init st1

/-- No restriction on the operations. -/
def anyOp {σ : Type} : Env σ → Scheduler σ → Op → Prop := fun _ _ _ => True

/-- The circumstances under which the pieces stay apart: every `DoRequestdata` succeeds,
the handler supplies only piece numbers that are in no session queue and not in the lost
queue, and `OnTimedOut` reports only piece numbers that are in neither the download queue
nor a session queue. -/
def Admissible {σ : Type} (E : Env σ) (st : Scheduler σ) (op : Op) : Prop :=
  (∀ s sessionid pieces, (E.DoRequestdata s sessionid pieces).1 = true) ∧
  (∀ h, E.handler = some h → ∀ n, ∀ x ∈ h n,
    x ∉ st.m_lostPiecesQueue ∧ ∀ e ∈ st.m_session_needdownloadpieceQ, x ∉ e.2) ∧
  (∀ sessionid pns, op = Op.OnTimedOut sessionid pns → ∀ x ∈ pns,
    x ∉ st.m_downloadQueue ∧ ∀ e ∈ st.m_session_needdownloadpieceQ, x ∉ e.2)

/-- The sessions are live: every entry of the session table is a session (no null entry)
whose round-trip time is not 0 ms, and every session whose queue is not empty is in the
session table. -/
def SessionsLive {σ : Type} (E : Env σ) (st : Scheduler σ) : Prop :=
  (∀ e ∈ st.m_dlsessionmap, ∃ s, e.2 = some s ∧ toInt (ToMilliseconds (E.GetRtt s)) ≠ 0) ∧
  (∀ e ∈ st.m_session_needdownloadpieceQ, e.2 ≠ [] →
    ∃ s, mapFind st.m_dlsessionmap e.1 = some (some s))

/-- The pair (round-trip time, session) of every session of the session table, in the
iteration order of the table. -/
def tablePairs {σ : Type} (E : Env σ) (table : List (Nat × Option σ)) : List (Int × σ) :=
  table.filterMap fun e => e.2.map fun s => (E.GetRtt s, s)

/-- The naive greedy fill that the distribution is compared with: the ranked sessions are
visited in ranking order, and each one that is tracked and has a surveyed capacity `c`
receives the first `min c |pool|` pieces of the download queue (the smallest ones, the
queue being ascending), which leave the queue. -/
def greedyFill {σ : Type} (E : Env σ) (toSend : List (Nat × Nat)) :
    List (Int × σ) → List Int → List (Nat × List Int) → List Int × List (Nat × List Int)
  | [], dq, q => (dq, q)
  | (_, sessStream) :: rest, dq, q =>
    match mapFind q (E.GetSessionId sessStream), mapFind toSend (E.GetSessionId sessStream) with
    | some _, some c =>
      greedyFill E toSend rest (dq.drop c) (queueInsert q (E.GetSessionId sessStream) (dq.take c))
    | _, _ => greedyFill E toSend rest dq q

/-- The piece numbers handed to `DoRequestdata`, all batches one after the other. -/
def sentIds : List Call → List Int
  | [] => []
  | Call.OnRequestDownloadPieces _ :: rest => sentIds rest
  | Call.DoRequestdata _ pieces _ :: rest => pieces ++ sentIds rest

/-! ## Concrete states -/

/-- One session of window 3 whose sends fail, holding the pieces 7, 8, 9. -/
def sendFailState : Scheduler SimSession where
  m_dlsessionmap := [(1, some ⟨1, 10000, 3, false⟩)]
  m_downloadQueue := []
  m_lostPiecesQueue := []
  m_session_needdownloadpieceQ := [(1, [7, 8, 9])]
  m_sortmmap := []

/-- As `sendFailState`, with a window of 1. -/
def sendFailNarrowState : Scheduler SimSession where
  m_dlsessionmap := [(1, some ⟨1, 10000, 1, false⟩)]
  m_downloadQueue := []
  m_lostPiecesQueue := []
  m_session_needdownloadpieceQ := [(1, [7, 8, 9])]
  m_sortmmap := []

/-- Two sessions, RTT 10 ms with window 4 and RTT 30 ms with window 2, both tracked with
empty queues, and the download queue 0..9. -/
def skipState : Scheduler SimSession where
  m_dlsessionmap := [(1, some ⟨1, 10000, 4, true⟩), (2, some ⟨2, 30000, 2, true⟩)]
  m_downloadQueue := [0, 1, 2, 3, 4, 5, 6, 7, 8, 9]
  m_lostPiecesQueue := []
  m_session_needdownloadpieceQ := [(1, []), (2, [])]
  m_sortmmap := []

/-- One known session whose window is 0. -/
def zeroWndState : Scheduler SimSession where
  m_dlsessionmap := [(1, some ⟨1, 10000, 0, true⟩)]
  m_downloadQueue := [0, 1, 2]
  m_lostPiecesQueue := []
  m_session_needdownloadpieceQ := [(1, [])]
  m_sortmmap := []

/-- Session 7 holds the piece 1, which is also in the download queue. -/
def overlapState : Scheduler SimSession where
  m_dlsessionmap := [(7, some ⟨7, 10000, 1, true⟩)]
  m_downloadQueue := [1]
  m_lostPiecesQueue := []
  m_session_needdownloadpieceQ := [(7, [1])]
  m_sortmmap := []

/-- Sessions 3 and 7 hold 9 and 4, 5, 6; the download queue holds 1, 2 and the lost queue 8. -/
def destroyState : Scheduler SimSession where
  m_dlsessionmap := [(3, some ⟨3, 20000, 2, true⟩), (7, some ⟨7, 10000, 2, true⟩)]
  m_downloadQueue := [1, 2]
  m_lostPiecesQueue := [8]
  m_session_needdownloadpieceQ := [(3, [9]), (7, [4, 5, 6])]
  m_sortmmap := []

/-- One session of window 5 in the table, no session tracked, nothing to download. -/
def untrackedState : Scheduler SimSession where
  m_dlsessionmap := [(1, some ⟨1, 10000, 5, true⟩)]
  m_downloadQueue := []
  m_lostPiecesQueue := []
  m_session_needdownloadpieceQ := []
  m_sortmmap := []

/-- Two tracked sessions of window 2147483648 each, nothing to download. -/
def hugeWndState : Scheduler SimSession where
  m_dlsessionmap :=
    [(1, some ⟨1, 10000, 2147483648, true⟩), (2, some ⟨2, 10000, 2147483648, true⟩)]
  m_downloadQueue := []
  m_lostPiecesQueue := []
  m_session_needdownloadpieceQ := [(1, []), (2, [])]
  m_sortmmap := []

/-- Two tracked sessions of windows 4 and 2, the download queue 0, 1 and the lost queue 5. -/
def shortState : Scheduler SimSession where
  m_dlsessionmap := [(1, some ⟨1, 10000, 4, true⟩), (2, some ⟨2, 30000, 2, true⟩)]
  m_downloadQueue := [0, 1]
  m_lostPiecesQueue := [5]
  m_session_needdownloadpieceQ := [(1, []), (2, [])]
  m_sortmmap := []

/-- The download queue holds the piece 1; nothing is lost and no session is tracked. -/
def poolOnlyState : Scheduler SimSession where
  m_dlsessionmap := []
  m_downloadQueue := [1]
  m_lostPiecesQueue := []
  m_session_needdownloadpieceQ := []
  m_sortmmap := []

/-- One session of window 2 in the table, the download queue 0, 1, 2, nothing tracked. -/
def runStart : Scheduler SimSession where
  m_dlsessionmap := [(1, some ⟨1, 10000, 2, true⟩)]
  m_downloadQueue := [0, 1, 2]
  m_lostPiecesQueue := []
  m_session_needdownloadpieceQ := []
  m_sortmmap := []

/-- The state of `runStart` after `OnSessionCreate(1)`, `OnTimedOut(1, [9])` and
`DoMultiPathSchedule` with `okEnv`. -/
def runEnd : Scheduler SimSession where
  m_dlsessionmap := [(1, some ⟨1, 10000, 0, true⟩)]
  m_downloadQueue := [2, 9]
  m_lostPiecesQueue := []
  m_session_needdownloadpieceQ := [(1, [])]
  m_sortmmap := [(10000, ⟨1, 10000, 2, true⟩)]

/-- Session 7, of window 1, is tracked with an empty queue; the download queue holds 1. -/
def trackedOneState : Scheduler SimSession where
  m_dlsessionmap := [(7, some ⟨7, 10000, 1, true⟩)]
  m_downloadQueue := [1]
  m_lostPiecesQueue := []
  m_session_needdownloadpieceQ := [(7, [])]
  m_sortmmap := []

/-- Session 1 has window 0 and holds the pieces 4, 5; the download queue holds 0, 1, 2 and
the lost queue 8. -/
def zeroWndQueuedState : Scheduler SimSession where
  m_dlsessionmap := [(1, some ⟨1, 10000, 0, true⟩)]
  m_downloadQueue := [0, 1, 2]
  m_lostPiecesQueue := [8]
  m_session_needdownloadpieceQ := [(1, [4, 5])]
  m_sortmmap := []

/-- Four sessions in the table, 1 and 3 with RTT 30 ms, 2 and 4 with RTT 10 ms; the
ranking still holds an entry of an earlier pass. -/
def tieState : Scheduler SimSession where
  m_dlsessionmap :=
    [(1, some ⟨1, 30000, 1, true⟩), (2, some ⟨2, 10000, 1, true⟩),
     (3, some ⟨3, 30000, 1, true⟩), (4, some ⟨4, 10000, 1, true⟩)]
  m_downloadQueue := []
  m_lostPiecesQueue := []
  m_session_needdownloadpieceQ := []
  m_sortmmap := [(5000, ⟨9, 5000, 1, true⟩)]

/-! # Theorems -/

/-! ## Container lemmas -/

theorem mem_setInsert (a x : Int) (s : List Int) : a ∈ setInsert x s ↔ a = x ∨ a ∈ s := by
  induction s with
  | nil => simp [setInsert]
  | cons y ys ih =>
    unfold setInsert
    split_ifs with h1 h2
    · simp
    · subst h2; simp
    · simp only [List.mem_cons, ih]; tauto

theorem mem_setInsertRange (a : Int) (xs s : List Int) :
    a ∈ setInsertRange xs s ↔ a ∈ xs ∨ a ∈ s := by
  unfold setInsertRange
  induction xs generalizing s with
  | nil => simp
  | cons x xs ih => simp only [List.foldl_cons, ih, mem_setInsert, List.mem_cons]; tauto

theorem setInsert_ascending (x : Int) (s : List Int) (h : s.Pairwise (· < ·)) :
    (setInsert x s).Pairwise (· < ·) := by
  induction s with
  | nil => simp [setInsert]
  | cons y ys ih =>
    rw [List.pairwise_cons] at h
    unfold setInsert
    split_ifs with h1 h2
    · refine List.pairwise_cons.2 ⟨?_, List.pairwise_cons.2 h⟩
      intro z hz
      rcases List.mem_cons.1 hz with rfl | hz
      · exact h1
      · exact lt_trans h1 (h.1 z hz)
    · exact List.pairwise_cons.2 h
    · refine List.pairwise_cons.2 ⟨?_, ih h.2⟩
      intro z hz
      rcases (mem_setInsert z x ys).1 hz with rfl | hz
      · omega
      · exact h.1 z hz

theorem setInsertRange_ascending (xs s : List Int) (h : s.Pairwise (· < ·)) :
    (setInsertRange xs s).Pairwise (· < ·) := by
  unfold setInsertRange
  induction xs generalizing s with
  | nil => simpa using h
  | cons x xs ih => exact ih _ (setInsert_ascending x s h)

theorem length_setInsert_of_not_mem (x : Int) (s : List Int) (hx : x ∉ s) :
    (setInsert x s).length = s.length + 1 := by
  induction s with
  | nil => simp [setInsert]
  | cons y ys ih =>
    simp only [List.mem_cons, not_or] at hx
    unfold setInsert
    split_ifs with h1 h2
    · simp
    · exact absurd h2 hx.1
    · simp [ih hx.2]

theorem setInsert_of_mem (x : Int) (s : List Int) (h : s.Pairwise (· < ·)) (hx : x ∈ s) :
    setInsert x s = s := by
  induction s with
  | nil => simp at hx
  | cons y ys ih =>
    rw [List.pairwise_cons] at h
    unfold setInsert
    split_ifs with h1 h2
    · rcases List.mem_cons.1 hx with rfl | hx
      · omega
      · have := h.1 x hx; omega
    · rfl
    · rcases List.mem_cons.1 hx with rfl | hx
      · exact absurd rfl h2
      · rw [ih h.2 hx]

theorem length_setInsertRange (xs s : List Int) (hxs : xs.Nodup) (hd : ∀ x ∈ xs, x ∉ s) :
    (setInsertRange xs s).length = s.length + xs.length := by
  unfold setInsertRange
  induction xs generalizing s with
  | nil => simp
  | cons x xs ih =>
    rw [List.nodup_cons] at hxs
    simp only [List.foldl_cons, List.length_cons]
    rw [ih _ hxs.2, length_setInsert_of_not_mem x s (hd x (List.mem_cons_self x xs))]
    · omega
    · intro z hz hz2
      rcases (mem_setInsert z x s).1 hz2 with rfl | hz2
      · exact hxs.1 hz
      · exact hd z (List.mem_cons_of_mem x hz) hz2

theorem mapFind_mapAssign {V : Type} (m : List (Nat × V)) (k : Nat) (v : V) (k' : Nat) :
    mapFind (mapAssign m k v) k' = if k' = k then some v else mapFind m k' := by
  induction m with
  | nil => simp [mapAssign, mapFind]
  | cons e rest ih =>
    obtain ⟨a, w⟩ := e
    unfold mapAssign
    split_ifs with h1 h2 h3 h4 h5 <;> simp_all [mapFind]

theorem mem_of_mapFind {V : Type} (m : List (Nat × V)) (k : Nat) (v : V)
    (h : mapFind m k = some v) : (k, v) ∈ m := by
  induction m with
  | nil => simp [mapFind] at h
  | cons e rest ih =>
    obtain ⟨a, w⟩ := e
    unfold mapFind at h
    split_ifs at h with h1
    · simp only [Option.some.injEq] at h; subst h1; subst h; simp
    · exact List.mem_cons_of_mem _ (ih h)

theorem mapFind_of_mem {V : Type} (m : List (Nat × V)) (k : Nat) (v : V)
    (hk : m.Pairwise (fun a b => a.1 < b.1)) (h : (k, v) ∈ m) : mapFind m k = some v := by
  induction m with
  | nil => simp at h
  | cons e rest ih =>
    obtain ⟨a, w⟩ := e
    rw [List.pairwise_cons] at hk
    unfold mapFind
    rcases List.mem_cons.1 h with h | h
    · simp only [Prod.mk.injEq] at h; simp [h.1, h.2]
    · have := hk.1 _ h
      dsimp only at this
      rw [if_neg (by omega)]
      exact ih hk.2 h

theorem mapFind_eq_none {V : Type} (m : List (Nat × V)) (k : Nat)
    (h : ∀ e ∈ m, e.1 ≠ k) : mapFind m k = none := by
  induction m with
  | nil => rfl
  | cons e rest ih =>
    obtain ⟨a, w⟩ := e
    unfold mapFind
    have := h (a, w) (List.mem_cons_self _ _)
    dsimp only at this
    rw [if_neg (fun h => this h.symm)]
    exact ih (fun e he => h e (List.mem_cons_of_mem _ he))

theorem mem_mapAssign {V : Type} (m : List (Nat × V)) (k : Nat) (v : V) (e : Nat × V)
    (h : e ∈ mapAssign m k v) : e = (k, v) ∨ e ∈ m := by
  induction m with
  | nil => simpa [mapAssign] using h
  | cons e' rest ih =>
    obtain ⟨a, w⟩ := e'
    unfold mapAssign at h
    split_ifs at h with h1 h2
    · simpa using h
    · rcases List.mem_cons.1 h with h | h
      · left; rw [h, h2]
      · right; exact List.mem_cons_of_mem _ h
    · rcases List.mem_cons.1 h with h | h
      · right; rw [h]; exact List.mem_cons_self _ _
      · rcases ih h with h | h
        · left; exact h
        · right; exact List.mem_cons_of_mem _ h

theorem mapAssign_keys {V : Type} (m : List (Nat × V)) (k : Nat) (v : V)
    (hk : m.Pairwise (fun a b => a.1 < b.1)) :
    (mapAssign m k v).Pairwise (fun a b => a.1 < b.1) := by
  induction m with
  | nil => simp [mapAssign]
  | cons e rest ih =>
    obtain ⟨a, w⟩ := e
    rw [List.pairwise_cons] at hk
    unfold mapAssign
    split_ifs with h1 h2
    · refine List.pairwise_cons.2 ⟨?_, List.pairwise_cons.2 hk⟩
      intro z hz
      rcases List.mem_cons.1 hz with rfl | hz
      · exact h1
      · exact lt_trans h1 (hk.1 z hz)
    · exact List.pairwise_cons.2 hk
    · refine List.pairwise_cons.2 ⟨?_, ih hk.2⟩
      intro z hz
      rcases mem_mapAssign rest k v z hz with rfl | hz
      · show a < k; omega
      · exact hk.1 z hz

theorem mapErase_sublist {V : Type} (m : List (Nat × V)) (k : Nat) :
    List.Sublist (mapErase m k) m := by
  induction m with
  | nil => simp [mapErase]
  | cons e rest ih =>
    obtain ⟨a, w⟩ := e
    unfold mapErase
    split_ifs with h1
    · exact List.sublist_cons_self _ _
    · exact List.Sublist.cons₂ _ ih

theorem mapFind_mapErase_ne {V : Type} (m : List (Nat × V)) (k k' : Nat) (h : k' ≠ k) :
    mapFind (mapErase m k) k' = mapFind m k' := by
  induction m with
  | nil => simp [mapErase]
  | cons e rest ih =>
    obtain ⟨a, w⟩ := e
    unfold mapErase
    split_ifs with h1
    · subst h1; simp [mapFind, h]
    · simp [mapFind, ih]

theorem mapFind_mapErase_self {V : Type} (m : List (Nat × V)) (k : Nat)
    (hk : m.Pairwise (fun a b => a.1 < b.1)) : mapFind (mapErase m k) k = none := by
  induction m with
  | nil => simp [mapErase, mapFind]
  | cons e rest ih =>
    obtain ⟨a, w⟩ := e
    rw [List.pairwise_cons] at hk
    unfold mapErase
    split_ifs with h1
    · subst h1
      exact mapFind_eq_none rest k (fun e he => by have := hk.1 e he; dsimp only at this; omega)
    · simp [mapFind, h1, ih hk.2]

theorem mapFind_queueInsert (q : List (Nat × List Int)) (k : Nat) (vec : List Int)
    (k' : Nat) :
    mapFind (queueInsert q k vec) k' =
      if k' = k then some (setInsertRange vec ((mapFind q k).getD [])) else mapFind q k' := by
  unfold queueInsert
  exact mapFind_mapAssign _ _ _ _

theorem mem_resetLoop (x : Int) (m : List (Nat × List Int)) (dq : List Int) :
    x ∈ resetLoop m dq ↔ x ∈ dq ∨ ∃ e ∈ m, x ∈ e.2 := by
  induction m generalizing dq with
  | nil => simp [resetLoop]
  | cons e rest ih =>
    obtain ⟨k, q⟩ := e
    unfold resetLoop
    rw [ih]
    cases q with
    | nil => simp
    | cons y ys =>
      simp only [List.isEmpty_cons, Bool.false_eq_true, if_false, mem_setInsertRange,
        List.mem_cons, exists_eq_or_imp]
      tauto

theorem resetLoop_ascending (m : List (Nat × List Int)) (dq : List Int)
    (h : dq.Pairwise (· < ·)) : (resetLoop m dq).Pairwise (· < ·) := by
  induction m generalizing dq with
  | nil => simpa [resetLoop] using h
  | cons e rest ih =>
    obtain ⟨k, q⟩ := e
    unfold resetLoop
    apply ih
    split_ifs
    · exact h
    · exact setInsertRange_ascending q dq h

theorem take_lt_drop (l : List Int) (n : Nat) (h : l.Pairwise (· < ·)) :
    ∀ x ∈ l.take n, ∀ y ∈ l.drop n, x < y := by
  rw [← List.take_append_drop n l, List.pairwise_append] at h
  exact h.2.2

theorem nodup_of_ascending (l : List Int) (h : l.Pairwise (· < ·)) : l.Nodup :=
  List.Pairwise.imp (fun hab => ne_of_lt hab) h

/-- C10: after `OnResetDownload` the download queue holds exactly the piece numbers of the
old download queue and of all old session queues, no session queue is left, and the lost
queue, the session table and the ranking are unchanged; `StopMultiPathScheduler` does the
same and returns `true`. -/
theorem C10_reset_effect {σ : Type} (st : Scheduler σ) :
    (∀ x, x ∈ (OnResetDownload st).m_downloadQueue ↔
      x ∈ st.m_downloadQueue ∨ ∃ e ∈ st.m_session_needdownloadpieceQ, x ∈ e.2) ∧
    (OnResetDownload st).m_session_needdownloadpieceQ = [] ∧
    (OnResetDownload st).m_lostPiecesQueue = st.m_lostPiecesQueue ∧
    (OnResetDownload st).m_dlsessionmap = st.m_dlsessionmap ∧
    (OnResetDownload st).m_sortmmap = st.m_sortmmap ∧
    StopMultiPathScheduler st = (OnResetDownload st, true) := by
  unfold StopMultiPathScheduler OnResetDownload
  cases hq : st.m_session_needdownloadpieceQ with
  | nil => simp [hq]
  | cons e rest =>
    simp only [List.isEmpty_cons, Bool.false_eq_true, if_false, and_self, and_true]
    intro x
    exact mem_resetLoop x (e :: rest) st.m_downloadQueue

/-- C2, the code at the failing input: a session holding exactly the pieces 7, 8, 9 with
window 3 whose send fails ends with an empty queue and an empty download queue, so the
three pieces are nowhere; with window 1 the piece 7 that was pulled is nowhere and the
pieces 8 and 9 that were not pulled are in the download queue and in the session queue. -/
theorem C2_send_failure_loses_batch :
    DoSendSessionSubTask simEnv sendFailState 1 =
      some ({ sendFailState with
              m_dlsessionmap := [(1, some ⟨1, 10000, 0, false⟩)]
              m_downloadQueue := []
              m_session_needdownloadpieceQ := [(1, [])] },
            -1, [Call.DoRequestdata 1 [7, 8, 9] false]) ∧
    DoSendSessionSubTask simEnv sendFailNarrowState 1 =
      some ({ sendFailNarrowState with
              m_dlsessionmap := [(1, some ⟨1, 10000, 0, false⟩)]
              m_downloadQueue := [8, 9]
              m_session_needdownloadpieceQ := [(1, [8, 9])] },
            -1, [Call.DoRequestdata 1 [7] false]) := by
  decide

/-- C3, the code at the failing input: with RTT 10 ms / window 4 and RTT 30 ms / window 2
and the download queue 0..9, the distribution step gives 0, 1, 2, 3 to the fast session and
the next two pieces 4, 5 to the slow session; 6, 7, 8, 9 stay in the download queue. -/
theorem C3_slow_session_gets_next_two :
    (SortSession simEnv skipState).bind (fillDistribute simEnv) =
      some ({ skipState with
              m_downloadQueue := [6, 7, 8, 9]
              m_session_needdownloadpieceQ := [(1, [0, 1, 2, 3]), (2, [4, 5])]
              m_sortmmap := [(10000, ⟨1, 10000, 4, true⟩), (30000, ⟨2, 30000, 2, true⟩)] },
            []) := by
  decide

/-- C7 as stated fails: for the known session 1 with window 0 the pass returns the same
4294967295 that it returns for the unknown session 5. -/
theorem C7_zero_window_returns_sentinel :
    mapFind zeroWndState.m_dlsessionmap 1 = some (some ⟨1, 10000, 0, true⟩) ∧
    simEnv.CanRequestPktCnt ⟨1, 10000, 0, true⟩ = 0 ∧
    (DoSinglePathSchedule simEnv zeroWndState 1).map (fun r => r.2.1) = some 4294967295 ∧
    mapFind zeroWndState.m_dlsessionmap 5 = none ∧
    (DoSinglePathSchedule simEnv zeroWndState 5).map (fun r => r.2.1) = some 4294967295 := by
  decide

/-- C7 amended: `DoSinglePathSchedule` always returns; it returns 0 when the id resolves
to a session whose `CanRequestPktCnt()` is not 0, and 4294967295 (`-1`) in every other
case: unknown id, null entry, or window 0. -/
theorem C7_single_path_status {σ : Type} (E : Env σ) (st : Scheduler σ) (sessionid : Nat) :
    ∃ st1 calls, DoSinglePathSchedule E st sessionid =
      some (st1,
        (match mapFind st.m_dlsessionmap sessionid with
          | some (some session) => if E.CanRequestPktCnt session = 0 then 4294967295 else 0
          | _ => 4294967295),
        calls) := by
  unfold DoSinglePathSchedule
  rcases h : mapFind st.m_dlsessionmap sessionid with _ | _ | session
  · exact ⟨_, _, rfl⟩
  · exact ⟨_, _, rfl⟩
  · dsimp only
    by_cases hc : E.CanRequestPktCnt session = 0
    · rw [if_pos hc, if_pos hc]; exact ⟨_, _, rfl⟩
    · rw [if_neg hc, if_neg hc]
      rcases hs : DoSendSessionSubTask E
        (singlePathAssign { st with m_downloadQueue :=
          (requestPieces E st.m_downloadQueue (E.CanRequestPktCnt session)).1 } sessionid
          (E.CanRequestPktCnt session)) sessionid with _ | ⟨st2, res, calls⟩
      · exfalso
        unfold DoSendSessionSubTask at hs
        simp only [singlePathAssign, h] at hs
        split at hs
        · simp at hs
        · split_ifs at hs
      · exact ⟨_, _, rfl⟩

/-- C5 as stated fails: session 7 holds the one piece 1, which is also in the download
queue; destroying the session leaves the download queue at size 1. -/
theorem C5_overlap_no_growth :
    mapFind overlapState.m_session_needdownloadpieceQ 7 = some [1] ∧
    overlapState.m_downloadQueue.length = 1 ∧
    (OnSessionDestory overlapState 7).m_downloadQueue.length = 1 := by
  decide

/-- C5 amended: when session `sessionid` has a queue `q` none of whose pieces is already
in the download queue, `OnSessionDestory` makes the download queue longer by exactly the
length of `q`, every piece of `q` is in it afterwards, the session has no entry any more,
every other session's entry is as before, and the lost queue is unchanged. -/
theorem C5_destroy_returns_pieces {σ : Type} (st : Scheduler σ) (sessionid : Nat)
    (q : List Int) (hwf : WellFormed st)
    (hq : mapFind st.m_session_needdownloadpieceQ sessionid = some q)
    (hfresh : ∀ x ∈ q, x ∉ st.m_downloadQueue) :
    (OnSessionDestory st sessionid).m_downloadQueue.length =
      st.m_downloadQueue.length + q.length ∧
    (∀ x ∈ q, x ∈ (OnSessionDestory st sessionid).m_downloadQueue) ∧
    mapFind (OnSessionDestory st sessionid).m_session_needdownloadpieceQ sessionid = none ∧
    (∀ k, k ≠ sessionid →
      mapFind (OnSessionDestory st sessionid).m_session_needdownloadpieceQ k =
        mapFind st.m_session_needdownloadpieceQ k) ∧
    (OnSessionDestory st sessionid).m_lostPiecesQueue = st.m_lostPiecesQueue := by
  obtain ⟨-, -, hkeys, hqs, -⟩ := hwf
  have hmem := mem_of_mapFind _ _ _ hq
  unfold OnSessionDestory
  rw [hq]
  refine ⟨?_, ?_, ?_, ?_, rfl⟩
  · exact length_setInsertRange q _ (nodup_of_ascending q (hqs _ hmem)) hfresh
  · intro x hx
    exact (mem_setInsertRange x q _).2 (Or.inl hx)
  · exact mapFind_mapErase_self _ _ hkeys
  · intro k hk
    exact mapFind_mapErase_ne _ _ _ hk

/-- C5 amended, at a concrete state: session 7 holds 4, 5, 6 and the download queue 1, 2;
afterwards the download queue has 5 pieces and session 7 has no entry. -/
theorem C5_destroy_returns_pieces_witness :
    WellFormed destroyState ∧
    mapFind destroyState.m_session_needdownloadpieceQ 7 = some [4, 5, 6] ∧
    (∀ x ∈ [4, 5, 6], x ∉ destroyState.m_downloadQueue) ∧
    (OnSessionDestory destroyState 7).m_downloadQueue.length = 2 + 3 ∧
    mapFind (OnSessionDestory destroyState 7).m_session_needdownloadpieceQ 7 = none :=
  ⟨by decide, by decide, by decide,
    (C5_destroy_returns_pieces destroyState 7 [4, 5, 6] (by decide) (by decide) (by decide)).1,
    (C5_destroy_returns_pieces destroyState 7 [4, 5, 6] (by decide) (by decide)
      (by decide)).2.2.1⟩

theorem requestPieces_ascending {σ : Type} (E : Env σ) (dq : List Int) (need : Nat)
    (h : dq.Pairwise (· < ·)) : (requestPieces E dq need).1.Pairwise (· < ·) := by
  unfold requestPieces
  split_ifs
  · split
    · exact setInsertRange_ascending _ _ h
    · exact h
  · exact h

/-- C8: for a known session whose `CanRequestPktCnt()` is `C > 0`, `DoSinglePathSchedule`
is the replenishment request, then `singlePathAssign`, then `DoSendSessionSubTask`. With
`pool` the download queue after the request, `singlePathAssign` splits `pool` into its
first `min C |pool|` pieces, each smaller than every piece that stays, and the rest, which
is the new download queue; the session's queue gets exactly those first pieces in
addition to what it held; every other session's queue and the lost queue are unchanged. -/
theorem C8_single_path_assignment {σ : Type} (E : Env σ) (st : Scheduler σ) (sessionid : Nat)
    (session : σ) (hknown : mapFind st.m_dlsessionmap sessionid = some (some session))
    (hC : 0 < E.CanRequestPktCnt session) (hdq : st.m_downloadQueue.Pairwise (· < ·)) :
    DoSinglePathSchedule E st sessionid =
      (DoSendSessionSubTask E
        (singlePathAssign { st with m_downloadQueue :=
            (requestPieces E st.m_downloadQueue (E.CanRequestPktCnt session)).1 }
          sessionid (E.CanRequestPktCnt session)) sessionid).map
        (fun r => (r.1, 0,
          (requestPieces E st.m_downloadQueue (E.CanRequestPktCnt session)).2 ++ r.2.2)) ∧
    ∀ pool st1, pool = (requestPieces E st.m_downloadQueue (E.CanRequestPktCnt session)).1 →
      st1 = singlePathAssign { st with m_downloadQueue := pool } sessionid
        (E.CanRequestPktCnt session) →
      pool = pool.take (E.CanRequestPktCnt session) ++ st1.m_downloadQueue ∧
      (pool.take (E.CanRequestPktCnt session)).length =
        min (E.CanRequestPktCnt session) pool.length ∧
      (∀ x ∈ pool.take (E.CanRequestPktCnt session), ∀ y ∈ st1.m_downloadQueue, x < y) ∧
      (∀ x, x ∈ (mapFind st1.m_session_needdownloadpieceQ sessionid).getD [] ↔
        x ∈ pool.take (E.CanRequestPktCnt session) ∨
        x ∈ (mapFind st.m_session_needdownloadpieceQ sessionid).getD []) ∧
      (∀ k, k ≠ sessionid →
        mapFind st1.m_session_needdownloadpieceQ k = mapFind st.m_session_needdownloadpieceQ k) ∧
      st1.m_lostPiecesQueue = st.m_lostPiecesQueue := by
  constructor
  · unfold DoSinglePathSchedule
    rw [hknown]
    dsimp only
    rw [if_neg (by omega)]
    cases DoSendSessionSubTask E _ sessionid with
    | none => rfl
    | some r => rfl
  · intro pool st1 hpool hst1
    have hasc : pool.Pairwise (· < ·) := by
      rw [hpool]; exact requestPieces_ascending E _ _ hdq
    subst hst1
    refine ⟨?_, ?_, ?_, ?_, ?_, rfl⟩
    · exact (List.take_append_drop _ _).symm
    · exact List.length_take _ _
    · exact take_lt_drop pool _ hasc
    · intro x
      simp only [singlePathAssign, mapFind_queueInsert, if_true, Option.getD_some,
        mem_setInsertRange]
    · intro k hk
      simp only [singlePathAssign, mapFind_queueInsert, if_neg hk]

/-- C8 at a concrete state: session 1 has window 4 and the download queue is 0..9. -/
theorem C8_single_path_assignment_witness :
    mapFind skipState.m_dlsessionmap 1 = some (some ⟨1, 10000, 4, true⟩) ∧
    0 < simEnv.CanRequestPktCnt ⟨1, 10000, 4, true⟩ ∧
    skipState.m_downloadQueue.Pairwise (· < ·) ∧
    (singlePathAssign skipState 1 4).m_downloadQueue = [4, 5, 6, 7, 8, 9] ∧
    (singlePathAssign skipState 1 4).m_session_needdownloadpieceQ =
      [(1, [0, 1, 2, 3]), (2, [])] ∧
    DoSinglePathSchedule simEnv skipState 1 =
      (DoSendSessionSubTask simEnv
        (singlePathAssign { skipState with m_downloadQueue :=
            (requestPieces simEnv skipState.m_downloadQueue 4).1 } 1 4) 1).map
        (fun r => (r.1, 0, (requestPieces simEnv skipState.m_downloadQueue 4).2 ++ r.2.2)) :=
  ⟨by decide, by decide, by decide, by decide, by decide,
    (C8_single_path_assignment simEnv skipState 1 ⟨1, 10000, 4, true⟩ (by decide) (by decide)
      (by decide)).1⟩

/-- C9 as stated fails: session 7 is tracked with window 1 and the piece 1 is in the
download queue. After `OnTimedOut(7, [1])` the assignment step of the single-path pass
moves 1 into the session's queue; the send succeeds with batch 1, and afterwards 1 is
still in the lost queue. -/
theorem C9_sent_piece_still_lost :
    singlePathAssign (OnTimedOut trackedOneState 7 [1]) 7 1 =
      { trackedOneState with
        m_downloadQueue := []
        m_lostPiecesQueue := [1]
        m_session_needdownloadpieceQ := [(7, [1])] } ∧
    (DoSendSessionSubTask simEnv (singlePathAssign (OnTimedOut trackedOneState 7 [1]) 7 1) 7).map
        (fun r => (r.2.1, r.2.2, r.1.m_lostPiecesQueue)) =
      some (0, [Call.DoRequestdata 7 [1] true], [1]) := by
  decide

/-- C9 amended: for a session of the table whose queue `q` is not empty, with `c` its
`CanRequestPktCnt()`, `DoSendSessionSubTask` calls `DoRequestdata` once, with the first
`min c |q|` pieces of `q` in ascending order, each smaller than every piece left in `q`.
When the call returns `true` the result is 0, the session's queue is `q` without those
pieces, the download queue, the lost queue and the other sessions' queues are unchanged;
so a sent piece is in the download queue or the lost queue afterwards only if it was there
before. -/
theorem C9_send_success {σ : Type} (E : Env σ) (st : Scheduler σ) (sessionid : Nat)
    (q : List Int) (session : σ)
    (hq : mapFind st.m_session_needdownloadpieceQ sessionid = some q) (hne : q ≠ [])
    (hs : mapFind st.m_dlsessionmap sessionid = some (some session))
    (hasc : q.Pairwise (· < ·)) :
    ∃ st1 res, DoSendSessionSubTask E st sessionid =
        some (st1, res, [Call.DoRequestdata sessionid (q.take (E.CanRequestPktCnt session))
          (E.DoRequestdata session sessionid (q.take (E.CanRequestPktCnt session))).1]) ∧
      (q.take (E.CanRequestPktCnt session)).length = min (E.CanRequestPktCnt session) q.length ∧
      (q.take (E.CanRequestPktCnt session)).Pairwise (· < ·) ∧
      (∀ x ∈ q.take (E.CanRequestPktCnt session),
        ∀ y ∈ q.drop (E.CanRequestPktCnt session), x < y) ∧
      ((E.DoRequestdata session sessionid (q.take (E.CanRequestPktCnt session))).1 = true →
        res = 0 ∧
        mapFind st1.m_session_needdownloadpieceQ sessionid =
          some (q.drop (E.CanRequestPktCnt session)) ∧
        (∀ x ∈ q.take (E.CanRequestPktCnt session), x ∉ q.drop (E.CanRequestPktCnt session)) ∧
        (∀ k, k ≠ sessionid →
          mapFind st1.m_session_needdownloadpieceQ k =
            mapFind st.m_session_needdownloadpieceQ k) ∧
        st1.m_downloadQueue = st.m_downloadQueue ∧
        st1.m_lostPiecesQueue = st.m_lostPiecesQueue ∧
        (∀ x ∈ q.take (E.CanRequestPktCnt session),
          (x ∉ st.m_downloadQueue → x ∉ st1.m_downloadQueue) ∧
          (x ∉ st.m_lostPiecesQueue → x ∉ st1.m_lostPiecesQueue))) := by
  have hlt := take_lt_drop q (E.CanRequestPktCnt session) hasc
  have hemp : q.isEmpty = false := by cases q <;> simp_all
  unfold DoSendSessionSubTask
  rw [hq]
  dsimp only
  rw [hemp, hs]
  dsimp only
  cases hr : (E.DoRequestdata session sessionid (q.take (E.CanRequestPktCnt session))).1 with
  | false =>
    simp only [Bool.false_eq_true, if_false]
    refine ⟨_, _, rfl, List.length_take _ _, ?_, hlt, ?_⟩
    · exact List.Pairwise.sublist (List.take_sublist _ _) hasc
    · intro h; cases h
  | true =>
    simp only [if_true]
    refine ⟨_, _, rfl, List.length_take _ _, ?_, hlt, ?_⟩
    · exact List.Pairwise.sublist (List.take_sublist _ _) hasc
    · intro _
      refine ⟨rfl, ?_, ?_, ?_, rfl, rfl, ?_⟩
      · simp [mapFind_mapAssign]
      · intro x hx hx2
        exact lt_irrefl x (hlt x hx x hx2)
      · intro k hk
        simp [mapFind_mapAssign, hk]
      · intro x _
        exact ⟨id, id⟩

/-- C9 amended, at a concrete state: session 7 of `destroyState` holds 4, 5, 6 and has
window 2; the batch is 4, 5 and the queue keeps 6. -/
theorem C9_send_success_witness :
    mapFind destroyState.m_session_needdownloadpieceQ 7 = some [4, 5, 6] ∧
    mapFind destroyState.m_dlsessionmap 7 = some (some ⟨7, 10000, 2, true⟩) ∧
    ([4, 5, 6] : List Int).Pairwise (· < ·) ∧
    ∃ st1 res, DoSendSessionSubTask simEnv destroyState 7 =
        some (st1, res, [Call.DoRequestdata 7 [4, 5] true]) ∧
      res = 0 ∧ mapFind st1.m_session_needdownloadpieceQ 7 = some [6] ∧
      st1.m_downloadQueue = [1, 2] :=
  ⟨by decide, by decide, by decide,
    (C9_send_success simEnv destroyState 7 [4, 5, 6] ⟨7, 10000, 2, true⟩ (by decide)
      (by decide) (by decide) (by decide)).elim
      fun st1 h => h.elim fun res h => ⟨st1, res, h.1, (h.2.2.2.2 rfl).1, (h.2.2.2.2 rfl).2.1,
        (h.2.2.2.2 rfl).2.2.2.2.1⟩⟩

theorem requestedCounts_append (a b : List Call) :
    requestedCounts (a ++ b) = requestedCounts a ++ requestedCounts b := by
  induction a with
  | nil => rfl
  | cons c rest ih => cases c <;> simp [requestedCounts, ih]

theorem requestedCounts_DoSendSessionSubTask {σ : Type} (E : Env σ) (st st1 : Scheduler σ)
    (sessionid : Nat) (res : Int) (calls : List Call)
    (h : DoSendSessionSubTask E st sessionid = some (st1, res, calls)) :
    requestedCounts calls = [] := by
  unfold DoSendSessionSubTask at h
  split at h
  · simp only [Option.some.injEq, Prod.mk.injEq] at h
    rw [← h.2.2]; rfl
  · split_ifs at h
    · simp only [Option.some.injEq, Prod.mk.injEq] at h
      rw [← h.2.2]; rfl
    · split at h
      · cases h
      · cases h
      · dsimp only at h
        split_ifs at h <;>
        · simp only [Option.some.injEq, Prod.mk.injEq] at h
          rw [← h.2.2]; rfl

theorem requestedCounts_sendLoop {σ : Type} (E : Env σ) (ids : List Nat)
    (st st1 : Scheduler σ) (calls : List Call) (h : sendLoop E ids st = some (st1, calls)) :
    requestedCounts calls = [] := by
  induction ids generalizing st st1 calls with
  | nil =>
    simp only [sendLoop, Option.some.injEq, Prod.mk.injEq] at h
    rw [← h.2]; rfl
  | cons sessId rest ih =>
    unfold sendLoop at h
    split at h
    · cases h
    · rename_i st2 res calls2 hsend
      split at h
      · cases h
      · rename_i st3 calls3 hrest
        simp only [Option.some.injEq, Prod.mk.injEq] at h
        rw [← h.2, requestedCounts_append, requestedCounts_DoSendSessionSubTask E _ _ _ _ _ hsend,
          ih _ _ _ hrest]
        rfl

theorem requestedCounts_requestPieces {σ : Type} (E : Env σ) (h : Nat → List Int)
    (hh : E.handler = some h) (dq : List Int) (need : Nat) :
    requestedCounts (requestPieces E dq need).2 =
      if dq.length < need then [need - dq.length] else [] := by
  unfold requestPieces
  rw [hh]
  split_ifs <;> rfl

theorem foldl_add_snd (l : List (Nat × Nat)) (a : Nat) :
    l.foldl (fun total e => total + e.2) a = a + (l.map Prod.snd).sum := by
  induction l generalizing a with
  | nil => simp
  | cons e rest ih => simp only [List.foldl_cons, ih, List.map_cons, List.sum_cons]; omega

theorem mem_mapEmplace {V : Type} (m : List (Nat × V)) (k : Nat) (v : V) (e : Nat × V)
    (h : e ∈ mapEmplace m k v) : e.1 = k ∨ e ∈ m := by
  induction m with
  | nil =>
    simp only [mapEmplace, List.mem_singleton] at h
    left; rw [h]
  | cons e' rest ih =>
    obtain ⟨a, w⟩ := e'
    unfold mapEmplace at h
    split_ifs at h with h1 h2
    · rcases List.mem_cons.1 h with h | h
      · left; rw [h]
      · right; exact h
    · right; exact h
    · rcases List.mem_cons.1 h with h | h
      · right; rw [h]; exact List.mem_cons_self _ _
      · rcases ih h with h | h
        · left; exact h
        · right; exact List.mem_cons_of_mem _ h

theorem sum_mapEmplace (m : List (Nat × Nat)) (k v : Nat) (hk : ∀ e ∈ m, e.1 ≠ k) :
    ((mapEmplace m k v).map Prod.snd).sum = (m.map Prod.snd).sum + v := by
  induction m with
  | nil => simp [mapEmplace]
  | cons e rest ih =>
    obtain ⟨a, w⟩ := e
    have ha : a ≠ k := hk (a, w) (List.mem_cons_self _ _)
    have hrest := ih (fun e he => hk e (List.mem_cons_of_mem _ he))
    unfold mapEmplace
    split_ifs with h1 h2
    · simp only [List.map_cons, List.sum_cons]; omega
    · exact absurd h2.symm ha
    · simp only [List.map_cons, List.sum_cons, hrest]; omega

theorem surveyLoop_sum {σ : Type} (E : Env σ) (table : List (Nat × Option σ))
    (acc toSend : List (Nat × Nat)) (hkeys : table.Pairwise (fun a b => a.1 < b.1))
    (hacc : ∀ e ∈ acc, ∀ t ∈ table, e.1 < t.1)
    (h : surveyLoop E table acc = some toSend) :
    (toSend.map Prod.snd).sum = (acc.map Prod.snd).sum + tableCapacity E table := by
  induction table generalizing acc with
  | nil =>
    simp only [surveyLoop, Option.some.injEq] at h
    simp [tableCapacity, h]
  | cons t rest ih =>
    obtain ⟨k, s⟩ := t
    rw [List.pairwise_cons] at hkeys
    cases s with
    | none => simp [surveyLoop] at h
    | some s =>
      simp only [surveyLoop] at h
      rw [ih _ hkeys.2 ?_ h, sum_mapEmplace]
      · simp only [tableCapacity, List.map_cons, List.sum_cons]; omega
      · intro e he
        exact Nat.ne_of_lt (hacc e he (k, some s) (List.mem_cons_self _ _))
      · intro e he t ht
        rcases mem_mapEmplace _ _ _ _ he with he | he
        · rw [he]; exact hkeys.1 t ht
        · exact hacc e he t (List.mem_cons_of_mem _ ht)

theorem DoSendSessionSubTask_defined {σ : Type} (E : Env σ) (st : Scheduler σ)
    (sessionid : Nat) (session : σ)
    (hs : mapFind st.m_dlsessionmap sessionid = some (some session)) :
    ∃ r, DoSendSessionSubTask E st sessionid = some r := by
  unfold DoSendSessionSubTask
  rw [hs]
  split
  · exact ⟨_, rfl⟩
  · dsimp only
    split_ifs <;> exact ⟨_, rfl⟩

theorem SortSession_fields {σ : Type} (E : Env σ) (st st1 : Scheduler σ)
    (h : SortSession E st = some st1) :
    st1.m_dlsessionmap = st.m_dlsessionmap ∧ st1.m_downloadQueue = st.m_downloadQueue ∧
    st1.m_lostPiecesQueue = st.m_lostPiecesQueue ∧
    st1.m_session_needdownloadpieceQ = st.m_session_needdownloadpieceQ := by
  unfold SortSession at h
  cases hl : sortSessionLoop E st.m_dlsessionmap [] with
  | none => rw [hl] at h; cases h
  | some m =>
    rw [hl] at h
    simp only [Option.map_some', Option.some.injEq] at h
    subst h
    exact ⟨rfl, rfl, rfl, rfl⟩

/-- C6 as stated fails for the global pass: with a live handler, one session of window 5
in the table and an empty download queue, but no session tracked, `DoMultiPathSchedule`
makes no call at all; and with two tracked sessions of window 2147483648 each the 32-bit
total is 0 and no call is made either. -/
theorem C6_global_pass_without_request :
    simEnv.handler.isSome = true ∧
    tableCapacity simEnv untrackedState.m_dlsessionmap = 5 ∧
    untrackedState.m_downloadQueue.length = 0 ∧
    DoMultiPathSchedule simEnv untrackedState = some (untrackedState, []) ∧
    tableCapacity simEnv hugeWndState.m_dlsessionmap = 4294967296 ∧
    hugeWndState.m_downloadQueue.length = 0 ∧
    (DoMultiPathSchedule simEnv hugeWndState).map (fun r => requestedCounts r.2) = some [] := by
  decide

theorem inv_shrink (dq lost : List Int) (q : List (Nat × List Int)) (k : Nat) (s1 : List Int)
    (h : QueuesInv dq lost q) (hs : s1.Pairwise (· < ·))
    (hsub : ∀ x ∈ s1, x ∈ (mapFind q k).getD []) : QueuesInv dq lost (mapAssign q k s1) := by
  obtain ⟨h1, h2, h3, h4, h5, h6, h7⟩ := h
  have hold : ∀ x ∈ s1, ∃ s, mapFind q k = some s ∧ x ∈ s := by
    intro x hx
    have := hsub x hx
    cases hk : mapFind q k with
    | none => rw [hk] at this; simp at this
    | some s => rw [hk] at this; exact ⟨s, rfl, this⟩
  refine ⟨h1, h2, mapAssign_keys q k s1 h3, ?_, h5, ?_, ?_⟩
  · intro k1 s hk1
    rw [mapFind_mapAssign] at hk1
    split_ifs at hk1 with hkk
    · cases hk1; exact hs
    · exact h4 k1 s hk1
  · intro k1 s hk1 x hx
    rw [mapFind_mapAssign] at hk1
    split_ifs at hk1 with hkk
    · cases hk1
      obtain ⟨s0, hs0, hx0⟩ := hold x hx
      exact h6 k s0 hs0 x hx0
    · exact h6 k1 s hk1 x hx
  · intro a b sa sb hab ha hb x hx
    rw [mapFind_mapAssign] at ha hb
    split_ifs at ha hb with hak hbk hbk
    · exact absurd (hak.trans hbk.symm) hab
    · cases ha
      obtain ⟨s0, hs0, hx0⟩ := hold x hx
      exact h7 k b s0 sb (fun hkb => hbk hkb.symm) hs0 hb x hx0
    · cases hb
      intro hx1
      obtain ⟨s0, hs0, hx0⟩ := hold x hx1
      exact h7 a k sa s0 hak ha hs0 x hx hx0
    · exact h7 a b sa sb hab ha hb x hx

theorem inv_erase (dq lost : List Int) (q : List (Nat × List Int)) (k : Nat)
    (h : QueuesInv dq lost q) : QueuesInv dq lost (mapErase q k) := by
  obtain ⟨h1, h2, h3, h4, h5, h6, h7⟩ := h
  have hfind : ∀ k1 s, mapFind (mapErase q k) k1 = some s → mapFind q k1 = some s := by
    intro k1 s hk1
    by_cases hkk : k1 = k
    · subst hkk; rw [mapFind_mapErase_self q k1 h3] at hk1; cases hk1
    · rwa [mapFind_mapErase_ne q k k1 hkk] at hk1
  refine ⟨h1, h2, List.Pairwise.sublist (mapErase_sublist q k) h3, ?_, h5, ?_, ?_⟩
  · intro k1 s hk1
    exact h4 k1 s (hfind k1 s hk1)
  · intro k1 s hk1
    exact h6 k1 s (hfind k1 s hk1)
  · intro a b sa sb hab ha hb
    exact h7 a b sa sb hab (hfind a sa ha) (hfind b sb hb)

theorem inv_pool_grow (dq lost : List Int) (q : List (Nat × List Int)) (xs : List Int)
    (h : QueuesInv dq lost q)
    (hxs : ∀ x ∈ xs, x ∉ lost ∧ ∀ k s, mapFind q k = some s → x ∉ s) :
    QueuesInv (setInsertRange xs dq) lost q := by
  obtain ⟨h1, h2, h3, h4, h5, h6, h7⟩ := h
  refine ⟨setInsertRange_ascending xs dq h1, h2, h3, h4, ?_, ?_, h7⟩
  · intro x hx
    rcases (mem_setInsertRange x xs dq).1 hx with hx | hx
    · exact (hxs x hx).1
    · exact h5 x hx
  · intro k s hk x hx
    refine ⟨?_, (h6 k s hk x hx).2⟩
    intro hx1
    rcases (mem_setInsertRange x xs dq).1 hx1 with hx1 | hx1
    · exact (hxs x hx1).2 k s hk hx
    · exact (h6 k s hk x hx).1 hx1

theorem inv_lost_grow (dq lost : List Int) (q : List (Nat × List Int)) (pns : List Int)
    (h : QueuesInv dq lost q)
    (hpns : ∀ x ∈ pns, x ∉ dq ∧ ∀ k s, mapFind q k = some s → x ∉ s) :
    QueuesInv dq (setInsertRange pns lost) q := by
  obtain ⟨h1, h2, h3, h4, h5, h6, h7⟩ := h
  refine ⟨h1, setInsertRange_ascending pns lost h2, h3, h4, ?_, ?_, h7⟩
  · intro x hx hx1
    rcases (mem_setInsertRange x pns lost).1 hx1 with hx1 | hx1
    · exact (hpns x hx1).1 hx
    · exact h5 x hx hx1
  · intro k s hk x hx
    refine ⟨(h6 k s hk x hx).1, ?_⟩
    intro hx1
    rcases (mem_setInsertRange x pns lost).1 hx1 with hx1 | hx1
    · exact (hpns x hx1).2 k s hk hx
    · exact (h6 k s hk x hx).2 hx1

theorem inv_requeue (dq lost : List Int) (q : List (Nat × List Int))
    (h : QueuesInv dq lost q) : QueuesInv (setInsertRange lost dq) [] q := by
  obtain ⟨h1, h2, h3, h4, h5, h6, h7⟩ := h
  refine ⟨setInsertRange_ascending lost dq h1, List.Pairwise.nil, h3, h4, ?_, ?_, h7⟩
  · intro x _
    exact List.not_mem_nil x
  · intro k s hk x hx
    refine ⟨?_, List.not_mem_nil x⟩
    intro hx1
    rcases (mem_setInsertRange x lost dq).1 hx1 with hx1 | hx1
    · exact (h6 k s hk x hx).2 hx1
    · exact (h6 k s hk x hx).1 hx1

theorem inv_reset (dq lost : List Int) (q : List (Nat × List Int))
    (h : QueuesInv dq lost q) : QueuesInv (resetLoop q dq) lost [] := by
  obtain ⟨h1, h2, h3, h4, h5, h6, h7⟩ := h
  refine ⟨resetLoop_ascending q dq h1, h2, List.Pairwise.nil, ?_, ?_, ?_, ?_⟩
  · intro k s hk; simp [mapFind] at hk
  · intro x hx
    rcases (mem_resetLoop x q dq).1 hx with hx | ⟨e, he, hx⟩
    · exact h5 x hx
    · exact (h6 e.1 e.2 (mapFind_of_mem q e.1 e.2 h3 he) x hx).2
  · intro k s hk; simp [mapFind] at hk
  · intro a b sa sb _ ha; simp [mapFind] at ha

theorem mem_take_drop_split (l : List Int) (i c : Nat) (x : Int) :
    x ∈ l ↔ x ∈ l.take i ++ (l.drop i).drop c ∨ x ∈ (l.drop i).take c := by
  conv_lhs => rw [← List.take_append_drop i l, ← List.take_append_drop c (l.drop i)]
  simp only [List.mem_append]
  tauto

theorem take_drop_ascending (l : List Int) (i c : Nat) (h : l.Pairwise (· < ·)) :
    (l.take i ++ (l.drop i).drop c).Pairwise (· < ·) ∧
    ((l.drop i).take c).Pairwise (· < ·) ∧
    ∀ x ∈ (l.drop i).take c, x ∉ l.take i ++ (l.drop i).drop c := by
  have h0 : (l.take i ++ l.drop i).Pairwise (· < ·) := by rwa [List.take_append_drop]
  obtain ⟨ha, hb, hab⟩ := List.pairwise_append.1 h0
  have hb2 : ((l.drop i).take c ++ (l.drop i).drop c).Pairwise (· < ·) := by
    rwa [List.take_append_drop]
  obtain ⟨hc, hd, hcd⟩ := List.pairwise_append.1 hb2
  refine ⟨?_, hc, ?_⟩
  · rw [List.pairwise_append]
    refine ⟨ha, hd, ?_⟩
    intro x hx y hy
    exact hab x hx y (List.mem_of_mem_drop hy)
  · intro x hx hx1
    rcases List.mem_append.1 hx1 with hx1 | hx1
    · exact lt_irrefl x (hab x hx1 x (List.mem_of_mem_take hx))
    · exact lt_irrefl x (hcd x hx x hx1)

theorem inv_take (dq lost : List Int) (q : List (Nat × List Int)) (k i c : Nat)
    (h : QueuesInv dq lost q) :
    QueuesInv (dq.take i ++ (dq.drop i).drop c) lost (queueInsert q k ((dq.drop i).take c)) := by
  obtain ⟨h1, h2, h3, h4, h5, h6, h7⟩ := h
  obtain ⟨ht1, ht2, ht3⟩ := take_drop_ascending dq i c h1
  have hvec : ∀ x ∈ (dq.drop i).take c, x ∈ dq := fun x hx =>
    (mem_take_drop_split dq i c x).2 (Or.inr hx)
  have hrest : ∀ x ∈ dq.take i ++ (dq.drop i).drop c, x ∈ dq := fun x hx =>
    (mem_take_drop_split dq i c x).2 (Or.inl hx)
  have hold : ∀ x ∈ (mapFind q k).getD [], ∃ s, mapFind q k = some s ∧ x ∈ s := by
    intro x hx
    cases hk : mapFind q k with
    | none => rw [hk] at hx; simp at hx
    | some s => rw [hk] at hx; exact ⟨s, rfl, hx⟩
  have holdasc : ((mapFind q k).getD []).Pairwise (· < ·) := by
    cases hk : mapFind q k with
    | none => exact List.Pairwise.nil
    | some s => exact h4 k s hk
  refine ⟨ht1, h2, mapAssign_keys q k _ h3, ?_, ?_, ?_, ?_⟩
  · intro k1 s hk1
    rw [mapFind_queueInsert] at hk1
    split_ifs at hk1 with hkk
    · cases hk1; exact setInsertRange_ascending _ _ holdasc
    · exact h4 k1 s hk1
  · intro x hx
    exact h5 x (hrest x hx)
  · intro k1 s hk1 x hx
    rw [mapFind_queueInsert] at hk1
    split_ifs at hk1 with hkk
    · cases hk1
      rcases (mem_setInsertRange x _ _).1 hx with hx | hx
      · exact ⟨ht3 x hx, h5 x (hvec x hx)⟩
      · obtain ⟨s0, hs0, hx0⟩ := hold x hx
        exact ⟨fun hx1 => (h6 k s0 hs0 x hx0).1 (hrest x hx1), (h6 k s0 hs0 x hx0).2⟩
    · exact ⟨fun hx1 => (h6 k1 s hk1 x hx).1 (hrest x hx1), (h6 k1 s hk1 x hx).2⟩
  · intro a b sa sb hab ha hb x hx
    rw [mapFind_queueInsert] at ha hb
    split_ifs at ha hb with hak hbk hbk
    · exact absurd (hak.trans hbk.symm) hab
    · cases ha
      rcases (mem_setInsertRange x _ _).1 hx with hx | hx
      · intro hx1
        exact (h6 b sb hb x hx1).1 (hvec x hx)
      · obtain ⟨s0, hs0, hx0⟩ := hold x hx
        exact h7 k b s0 sb (fun hkb => hbk hkb.symm) hs0 hb x hx0
    · cases hb
      intro hx1
      rcases (mem_setInsertRange x _ _).1 hx1 with hx1 | hx1
      · exact (h6 a sa ha x hx).1 (hvec x hx1)
      · obtain ⟨s0, hs0, hx0⟩ := hold x hx1
        exact h7 a k sa s0 hak ha hs0 x hx hx0
    · exact h7 a b sa sb hab ha hb x hx

theorem inv_of_wf_disjoint {σ : Type} (st : Scheduler σ) (hwf : WellFormed st)
    (hd : Disjoint st) :
    QueuesInv st.m_downloadQueue st.m_lostPiecesQueue st.m_session_needdownloadpieceQ := by
  obtain ⟨w1, w2, w3, w4, -⟩ := hwf
  obtain ⟨d1, d2, d3⟩ := hd
  refine ⟨w1, w2, w3, ?_, d1, ?_, ?_⟩
  · intro k s hk
    exact w4 (k, s) (mem_of_mapFind _ k s hk)
  · intro k s hk
    exact d2 (k, s) (mem_of_mapFind _ k s hk)
  · intro a b sa sb hab ha hb
    have hsymm : Symmetric (fun (a b : Nat × List Int) => ∀ x ∈ a.2, x ∉ b.2) :=
      fun a b h x hx hx1 => h x hx1 hx
    exact List.Pairwise.forall hsymm d3 (mem_of_mapFind _ a sa ha) (mem_of_mapFind _ b sb hb)
      (fun h => hab (congrArg Prod.fst h))

theorem wf_disjoint_of_inv {σ : Type} (st : Scheduler σ)
    (h : QueuesInv st.m_downloadQueue st.m_lostPiecesQueue st.m_session_needdownloadpieceQ)
    (ht : st.m_dlsessionmap.Pairwise (fun a b => a.1 < b.1)) :
    WellFormed st ∧ Disjoint st := by
  obtain ⟨h1, h2, h3, h4, h5, h6, h7⟩ := h
  have hfind : ∀ e ∈ st.m_session_needdownloadpieceQ,
      mapFind st.m_session_needdownloadpieceQ e.1 = some e.2 :=
    fun e he => mapFind_of_mem _ e.1 e.2 h3 he
  refine ⟨⟨h1, h2, h3, ?_, ht⟩, h5, ?_, ?_⟩
  · intro e he
    exact h4 e.1 e.2 (hfind e he)
  · intro e he
    exact h6 e.1 e.2 (hfind e he)
  · refine List.Pairwise.imp_of_mem ?_ h3
    intro a b ha hb hab
    exact h7 a.1 b.1 a.2 b.2 (Nat.ne_of_lt hab) (hfind a ha) (hfind b hb)

theorem inv_OnSessionCreate {σ : Type} (st : Scheduler σ) (sessionid : Nat)
    (h : QueuesInv st.m_downloadQueue st.m_lostPiecesQueue st.m_session_needdownloadpieceQ) :
    QueuesInv (OnSessionCreate st sessionid).m_downloadQueue
      (OnSessionCreate st sessionid).m_lostPiecesQueue
      (OnSessionCreate st sessionid).m_session_needdownloadpieceQ := by
  have hs := inv_shrink _ _ _ sessionid [] h List.Pairwise.nil (fun x hx => by simp at hx)
  unfold OnSessionCreate
  cases hq : mapFind st.m_session_needdownloadpieceQ sessionid with
  | none => exact hs
  | some s =>
    dsimp only
    refine inv_pool_grow _ _ _ s hs ?_
    intro x hx
    obtain ⟨-, -, -, -, -, h6, h7⟩ := h
    refine ⟨(h6 sessionid s hq x hx).2, ?_⟩
    intro k s1 hk hx1
    rw [mapFind_mapAssign] at hk
    split_ifs at hk with hkk
    · cases hk; simp at hx1
    · exact h7 sessionid k s s1 (fun h => hkk h.symm) hq hk x hx hx1

theorem inv_OnSessionDestory {σ : Type} (st : Scheduler σ) (sessionid : Nat)
    (h : QueuesInv st.m_downloadQueue st.m_lostPiecesQueue st.m_session_needdownloadpieceQ) :
    QueuesInv (OnSessionDestory st sessionid).m_downloadQueue
      (OnSessionDestory st sessionid).m_lostPiecesQueue
      (OnSessionDestory st sessionid).m_session_needdownloadpieceQ := by
  unfold OnSessionDestory
  cases hq : mapFind st.m_session_needdownloadpieceQ sessionid with
  | none => exact h
  | some s =>
    dsimp only
    refine inv_pool_grow _ _ _ s (inv_erase _ _ _ sessionid h) ?_
    intro x hx
    obtain ⟨-, -, h3, -, -, h6, h7⟩ := h
    refine ⟨(h6 sessionid s hq x hx).2, ?_⟩
    intro k s1 hk hx1
    by_cases hkk : k = sessionid
    · subst hkk; rw [mapFind_mapErase_self _ _ h3] at hk; cases hk
    · rw [mapFind_mapErase_ne _ _ _ hkk] at hk
      exact h7 sessionid k s s1 (fun h => hkk h.symm) hq hk x hx hx1

theorem inv_OnResetDownload {σ : Type} (st : Scheduler σ)
    (h : QueuesInv st.m_downloadQueue st.m_lostPiecesQueue st.m_session_needdownloadpieceQ) :
    QueuesInv (OnResetDownload st).m_downloadQueue (OnResetDownload st).m_lostPiecesQueue
      (OnResetDownload st).m_session_needdownloadpieceQ := by
  unfold OnResetDownload
  split_ifs
  · exact h
  · exact inv_reset _ _ _ h

theorem inv_requestPieces {σ : Type} (E : Env σ) (dq lost : List Int)
    (q : List (Nat × List Int)) (need : Nat) (h : QueuesInv dq lost q)
    (hh : ∀ f, E.handler = some f → ∀ n, ∀ x ∈ f n,
      x ∉ lost ∧ ∀ k s, mapFind q k = some s → x ∉ s) :
    QueuesInv (requestPieces E dq need).1 lost q := by
  unfold requestPieces
  split_ifs
  · cases hf : E.handler with
    | none => exact h
    | some f => exact inv_pool_grow _ _ _ _ h (hh f hf _)
  · exact h

theorem inv_DoSendSessionSubTask {σ : Type} (E : Env σ) (st st1 : Scheduler σ)
    (sessionid : Nat) (res : Int) (calls : List Call)
    (hok : ∀ s sid pieces, (E.DoRequestdata s sid pieces).1 = true)
    (h : QueuesInv st.m_downloadQueue st.m_lostPiecesQueue st.m_session_needdownloadpieceQ)
    (hrun : DoSendSessionSubTask E st sessionid = some (st1, res, calls)) :
    QueuesInv st1.m_downloadQueue st1.m_lostPiecesQueue st1.m_session_needdownloadpieceQ := by
  unfold DoSendSessionSubTask at hrun
  split at hrun
  · rename_i hq
    simp only [Option.some.injEq, Prod.mk.injEq] at hrun
    rw [← hrun.1]
    exact inv_shrink _ _ _ sessionid [] h List.Pairwise.nil (fun x hx => by simp at hx)
  · rename_i s hq
    split_ifs at hrun
    · simp only [Option.some.injEq, Prod.mk.injEq] at hrun
      rw [← hrun.1]; exact h
    · split at hrun
      · cases hrun
      · cases hrun
      · rename_i session hs
        dsimp only at hrun
        rw [hok, if_pos rfl] at hrun
        simp only [Option.some.injEq, Prod.mk.injEq] at hrun
        rw [← hrun.1]
        dsimp only
        refine inv_shrink _ _ _ sessionid _ h ?_ ?_
        · exact List.Pairwise.sublist (List.drop_sublist _ _) (h.2.2.2.1 sessionid s hq)
        · intro x hx
          rw [hq]
          exact List.mem_of_mem_drop hx

theorem DoSendSessionSubTask_table {σ : Type} (E : Env σ) (st st1 : Scheduler σ)
    (sessionid : Nat) (res : Int) (calls : List Call)
    (ht : st.m_dlsessionmap.Pairwise (fun a b => a.1 < b.1))
    (hrun : DoSendSessionSubTask E st sessionid = some (st1, res, calls)) :
    st1.m_dlsessionmap.Pairwise (fun a b => a.1 < b.1) := by
  unfold DoSendSessionSubTask at hrun
  split at hrun
  · simp only [Option.some.injEq, Prod.mk.injEq] at hrun
    rw [← hrun.1]; exact ht
  · split_ifs at hrun
    · simp only [Option.some.injEq, Prod.mk.injEq] at hrun
      rw [← hrun.1]; exact ht
    · split at hrun
      · cases hrun
      · cases hrun
      · dsimp only at hrun
        split_ifs at hrun <;>
        · simp only [Option.some.injEq, Prod.mk.injEq] at hrun
          rw [← hrun.1]
          exact mapAssign_keys _ _ _ ht

theorem inv_sendLoop {σ : Type} (E : Env σ) (ids : List Nat) (st st1 : Scheduler σ)
    (calls : List Call)
    (hok : ∀ s sid pieces, (E.DoRequestdata s sid pieces).1 = true)
    (h : QueuesInv st.m_downloadQueue st.m_lostPiecesQueue st.m_session_needdownloadpieceQ)
    (ht : st.m_dlsessionmap.Pairwise (fun a b => a.1 < b.1))
    (hrun : sendLoop E ids st = some (st1, calls)) :
    QueuesInv st1.m_downloadQueue st1.m_lostPiecesQueue st1.m_session_needdownloadpieceQ ∧
    st1.m_dlsessionmap.Pairwise (fun a b => a.1 < b.1) := by
  induction ids generalizing st st1 calls with
  | nil =>
    simp only [sendLoop, Option.some.injEq, Prod.mk.injEq] at hrun
    rw [← hrun.1]; exact ⟨h, ht⟩
  | cons sessId rest ih =>
    unfold sendLoop at hrun
    split at hrun
    · cases hrun
    · rename_i st2 res calls2 hsend
      split at hrun
      · cases hrun
      · rename_i st3 calls3 hrest
        simp only [Option.some.injEq, Prod.mk.injEq] at hrun
        rw [← hrun.1]
        exact ih st2 st3 calls3 (inv_DoSendSessionSubTask E st st2 sessId res calls2 hok h hsend)
          (DoSendSessionSubTask_table E st st2 sessId res calls2 ht hsend) hrest

theorem inv_distributeLoop {σ : Type} (E : Env σ) (toSend : List (Nat × Nat))
    (sortmmap : List (Int × σ)) (dq lost : List Int) (q : List (Nat × List Int))
    (dtm : List (Int × Nat)) (dq1 : List Int) (q1 : List (Nat × List Int))
    (h : QueuesInv dq lost q)
    (hrun : distributeLoop E toSend sortmmap dq q dtm = some (dq1, q1)) :
    QueuesInv dq1 lost q1 := by
  induction sortmmap generalizing dq q dtm with
  | nil =>
    simp only [distributeLoop, Option.some.injEq, Prod.mk.injEq] at hrun
    rw [← hrun.1, ← hrun.2]; exact h
  | cons e rest ih =>
    obtain ⟨curr_duration, sessStream⟩ := e
    unfold distributeLoop at hrun
    dsimp only at hrun
    split at hrun
    · exact ih dq q dtm h hrun
    · split at hrun
      · exact ih dq q dtm h hrun
      · split at hrun
        · cases hrun
        · exact ih _ _ _ (inv_take dq lost q _ _ _ h) hrun

theorem inv_singlePathAssign {σ : Type} (st : Scheduler σ) (sessionid c : Nat)
    (h : QueuesInv st.m_downloadQueue st.m_lostPiecesQueue st.m_session_needdownloadpieceQ) :
    QueuesInv (singlePathAssign st sessionid c).m_downloadQueue
      (singlePathAssign st sessionid c).m_lostPiecesQueue
      (singlePathAssign st sessionid c).m_session_needdownloadpieceQ := by
  have := inv_take _ _ _ sessionid 0 c h
  simpa [singlePathAssign] using this

theorem handler_admissible {σ : Type} (E : Env σ) (lost : List Int)
    (q : List (Nat × List Int))
    (hh : ∀ f, E.handler = some f → ∀ n, ∀ x ∈ f n, x ∉ lost ∧ ∀ e ∈ q, x ∉ e.2) :
    ∀ f, E.handler = some f → ∀ n, ∀ x ∈ f n,
      x ∉ lost ∧ ∀ k s, mapFind q k = some s → x ∉ s :=
  fun f hf n x hx =>
    ⟨(hh f hf n x hx).1, fun k s hk => (hh f hf n x hx).2 (k, s) (mem_of_mapFind q k s hk)⟩

theorem inv_DoSinglePathSchedule {σ : Type} (E : Env σ) (st st1 : Scheduler σ)
    (sessionid : Nat) (status : Nat) (calls : List Call)
    (hok : ∀ s sid pieces, (E.DoRequestdata s sid pieces).1 = true)
    (hh : ∀ f, E.handler = some f → ∀ n, ∀ x ∈ f n,
      x ∉ st.m_lostPiecesQueue ∧ ∀ e ∈ st.m_session_needdownloadpieceQ, x ∉ e.2)
    (h : QueuesInv st.m_downloadQueue st.m_lostPiecesQueue st.m_session_needdownloadpieceQ)
    (ht : st.m_dlsessionmap.Pairwise (fun a b => a.1 < b.1))
    (hrun : DoSinglePathSchedule E st sessionid = some (st1, status, calls)) :
    QueuesInv st1.m_downloadQueue st1.m_lostPiecesQueue st1.m_session_needdownloadpieceQ ∧
    st1.m_dlsessionmap.Pairwise (fun a b => a.1 < b.1) := by
  unfold DoSinglePathSchedule at hrun
  split at hrun
  · simp only [Option.some.injEq, Prod.mk.injEq] at hrun
    rw [← hrun.1]
    exact ⟨h, mapAssign_keys _ _ _ ht⟩
  · simp only [Option.some.injEq, Prod.mk.injEq] at hrun
    rw [← hrun.1]; exact ⟨h, ht⟩
  · rename_i session hs
    dsimp only at hrun
    split_ifs at hrun with hc
    · simp only [Option.some.injEq, Prod.mk.injEq] at hrun
      rw [← hrun.1]; exact ⟨h, ht⟩
    · split at hrun
      · cases hrun
      · rename_i st2 res calls2 hsend
        simp only [Option.some.injEq, Prod.mk.injEq] at hrun
        rw [← hrun.1]
        have h1 := inv_requestPieces E _ _ _ (E.CanRequestPktCnt session) h
          (handler_admissible E _ _ hh)
        have h2 := inv_singlePathAssign
          { st with m_downloadQueue :=
              (requestPieces E st.m_downloadQueue (E.CanRequestPktCnt session)).1 }
          sessionid (E.CanRequestPktCnt session) h1
        exact ⟨inv_DoSendSessionSubTask E _ st2 sessionid res calls2 hok h2 hsend,
          DoSendSessionSubTask_table E _ st2 sessionid res calls2 (by exact ht) hsend⟩

theorem inv_DoMultiPathSchedule {σ : Type} (E : Env σ) (st st1 : Scheduler σ)
    (calls : List Call)
    (hok : ∀ s sid pieces, (E.DoRequestdata s sid pieces).1 = true)
    (hh : ∀ f, E.handler = some f → ∀ n, ∀ x ∈ f n,
      x ∉ st.m_lostPiecesQueue ∧ ∀ e ∈ st.m_session_needdownloadpieceQ, x ∉ e.2)
    (h : QueuesInv st.m_downloadQueue st.m_lostPiecesQueue st.m_session_needdownloadpieceQ)
    (ht : st.m_dlsessionmap.Pairwise (fun a b => a.1 < b.1))
    (hrun : DoMultiPathSchedule E st = some (st1, calls)) :
    QueuesInv st1.m_downloadQueue st1.m_lostPiecesQueue st1.m_session_needdownloadpieceQ ∧
    st1.m_dlsessionmap.Pairwise (fun a b => a.1 < b.1) := by
  unfold DoMultiPathSchedule at hrun
  split_ifs at hrun with hemp
  · simp only [Option.some.injEq, Prod.mk.injEq] at hrun
    rw [← hrun.1]; exact ⟨h, ht⟩
  · split at hrun
    · cases hrun
    · rename_i st0 hsort
      obtain ⟨htab, hdq, hlost, hq⟩ := SortSession_fields E st st0 hsort
      unfold FillUpSessionTask fillDistribute at hrun
      simp only [requeueLost, htab, hdq, hlost, hq] at hrun
      split at hrun
      · cases hrun
      · rename_i st2 calls2 hfd
        split at hfd
        · cases hfd
        · rename_i toSend hsurvey
          split at hfd
          · cases hfd
          · rename_i dq q hdist
            simp only [Option.some.injEq, Prod.mk.injEq] at hfd
            split at hrun
            · cases hrun
            · rename_i st3 calls3 hsend
              simp only [Option.some.injEq, Prod.mk.injEq] at hrun
              rw [← hrun.1]
              have h1 := inv_requeue _ _ _ h
              have h2 := inv_requestPieces E _ _ _ (totalSubpieceCnt toSend) h1
                (fun f hf n x hx => ⟨List.not_mem_nil x,
                  (handler_admissible E _ _ hh f hf n x hx).2⟩)
              have h3 := inv_distributeLoop E toSend _ _ _ _ _ dq q h2 hdist
              refine inv_sendLoop E _ st2 st3 calls3 hok ?_ ?_ hsend
              · rw [← hfd.1]; exact h3
              · rw [← hfd.1]; exact ht

/-- C1 as stated fails: from the initial state whose download queue holds the piece 1,
`OnTimedOut(1, [1])` reaches a state in which the piece 1 is in the download queue and in
the lost queue. -/
theorem C1_timed_out_piece_in_two_places :
    InitialState poolOnlyState ∧
    ReachableBy anyOp poolOnlyState (OnTimedOut poolOnlyState 1 [1]) ∧
    (1 : Int) ∈ (OnTimedOut poolOnlyState 1 [1]).m_downloadQueue ∧
    (1 : Int) ∈ (OnTimedOut poolOnlyState 1 [1]).m_lostPiecesQueue ∧
    ¬ Disjoint (OnTimedOut poolOnlyState 1 [1]) :=
  ⟨by decide,
    ReachableBy.step poolOnlyState _ simEnv (Op.OnTimedOut 1 [1]) ReachableBy.start trivial rfl,
    by decide, by decide, by decide⟩

/-- C1 amended: in every state reached from an initial state by public operations, with
the session table changing in between, in which every `DoRequestdata` succeeds, the
handler supplies only piece numbers held in no session queue and not in the lost queue,
and `OnTimedOut` reports only piece numbers that are in neither the download queue nor a
session queue, no piece number is in two of the download queue, the lost queue and the
session queues, and the containers are well-formed. -/
theorem C1_partition_invariant {σ : Type} (init st : Scheduler σ) (hinit : InitialState init)
    (hreach : ReachableBy Admissible init st) : Disjoint st ∧ WellFormed st := by
  have key : QueuesInv st.m_downloadQueue st.m_lostPiecesQueue
      st.m_session_needdownloadpieceQ ∧ st.m_dlsessionmap.Pairwise (fun a b => a.1 < b.1) := by
    induction hreach with
    | start =>
      obtain ⟨hwf, hd, hq⟩ := hinit
      refine ⟨inv_of_wf_disjoint init hwf ⟨hd, ?_, ?_⟩, hwf.2.2.2.2⟩
      · rw [hq]; intro e he; simp at he
      · rw [hq]; exact List.Pairwise.nil
    | table st0 t _ ht ih => exact ⟨ih.1, ht⟩
    | step st0 st1 E op _ hok hrun ih =>
      obtain ⟨hsend, hh, hto⟩ := hok
      cases op with
      | OnSessionCreate sessionid =>
        simp only [runOp, Option.some.injEq] at hrun
        rw [← hrun]
        exact ⟨inv_OnSessionCreate st0 sessionid ih.1, by unfold OnSessionCreate; split <;> exact ih.2⟩
      | OnSessionDestory sessionid =>
        simp only [runOp, Option.some.injEq] at hrun
        rw [← hrun]
        exact ⟨inv_OnSessionDestory st0 sessionid ih.1, by unfold OnSessionDestory; split <;> exact ih.2⟩
      | OnResetDownload =>
        simp only [runOp, Option.some.injEq] at hrun
        rw [← hrun]
        exact ⟨inv_OnResetDownload st0 ih.1, by unfold OnResetDownload; split_ifs <;> exact ih.2⟩
      | DoMultiPathSchedule =>
        simp only [runOp, Option.map_eq_some', Prod.exists, exists_and_right, exists_eq_right] at hrun
        obtain ⟨calls, hrun⟩ := hrun
        exact inv_DoMultiPathSchedule E st0 st1 calls hsend hh ih.1 ih.2 hrun
      | DoSinglePathSchedule sessionid =>
        simp only [runOp, Option.map_eq_some', Prod.exists, exists_and_right, exists_eq_right] at hrun
        obtain ⟨status, calls, hrun⟩ := hrun
        exact inv_DoSinglePathSchedule E st0 st1 sessionid status calls hsend hh ih.1 ih.2 hrun
      | OnTimedOut sessionid pns =>
        simp only [runOp, Option.some.injEq] at hrun
        rw [← hrun]
        refine ⟨inv_lost_grow _ _ _ pns ih.1 ?_, ih.2⟩
        intro x hx
        exact ⟨(hto sessionid pns rfl x hx).1, fun k s hk =>
          (hto sessionid pns rfl x hx).2 (k, s) (mem_of_mapFind _ k s hk)⟩
      | OnReceiveSubpieceData sessionid =>
        simp only [runOp, OnReceiveSubpieceData, Option.map_map, Option.map_eq_some',
          Function.comp_apply, Prod.exists] at hrun
        obtain ⟨st2, status, calls, hrun, hst⟩ := hrun
        rw [← hst]
        exact inv_DoSinglePathSchedule E st0 st2 sessionid status calls hsend hh ih.1 ih.2 hrun
  exact (wf_disjoint_of_inv st key.1 key.2).symm

theorem okEnv_admissible (st : Scheduler SimSession) (op : Op)
    (hto : ∀ sessionid pns, op = Op.OnTimedOut sessionid pns → ∀ x ∈ pns,
      x ∉ st.m_downloadQueue ∧ ∀ e ∈ st.m_session_needdownloadpieceQ, x ∉ e.2) :
    Admissible okEnv st op := by
  refine ⟨fun _ _ _ => rfl, ?_, hto⟩
  intro h hh n x hx
  simp only [okEnv, Option.some.injEq] at hh
  rw [← hh] at hx
  simp at hx

/-- C1 amended, at a concrete run: from `runStart`, `OnSessionCreate(1)`, then
`OnTimedOut(1, [9])`, then `DoMultiPathSchedule` reach `runEnd`, where the pieces are
apart. -/
theorem C1_partition_invariant_witness :
    InitialState runStart ∧ ReachableBy Admissible runStart runEnd ∧
    Disjoint runEnd ∧ WellFormed runEnd :=
  have hreach : ReachableBy Admissible runStart runEnd :=
    ReachableBy.step _ _ okEnv Op.DoMultiPathSchedule
      (ReachableBy.step _ _ okEnv (Op.OnTimedOut 1 [9])
        (ReachableBy.step _ _ okEnv (Op.OnSessionCreate 1) ReachableBy.start
          (okEnv_admissible _ _ (fun _ _ h => by cases h)) rfl)
        (okEnv_admissible _ _ (fun _ _ h => by cases h; decide)) rfl)
      (okEnv_admissible _ _ (fun _ _ h => by cases h)) (by decide)
  ⟨by decide, hreach, C1_partition_invariant runStart runEnd (by decide) hreach⟩

theorem DoSendSessionSubTask_pool {σ : Type} (E : Env σ) (st st1 : Scheduler σ)
    (sessionid : Nat) (res : Int) (calls : List Call)
    (hrun : DoSendSessionSubTask E st sessionid = some (st1, res, calls)) :
    (∀ x ∈ st.m_downloadQueue, x ∈ st1.m_downloadQueue) ∧
    st1.m_lostPiecesQueue = st.m_lostPiecesQueue := by
  unfold DoSendSessionSubTask at hrun
  split at hrun
  · simp only [Option.some.injEq, Prod.mk.injEq] at hrun
    rw [← hrun.1]; exact ⟨fun x hx => hx, rfl⟩
  · split_ifs at hrun
    · simp only [Option.some.injEq, Prod.mk.injEq] at hrun
      rw [← hrun.1]; exact ⟨fun x hx => hx, rfl⟩
    · split at hrun
      · cases hrun
      · cases hrun
      · dsimp only at hrun
        split_ifs at hrun
        · simp only [Option.some.injEq, Prod.mk.injEq] at hrun
          rw [← hrun.1]; exact ⟨fun x hx => hx, rfl⟩
        · simp only [Option.some.injEq, Prod.mk.injEq] at hrun
          rw [← hrun.1]
          exact ⟨fun x hx => (mem_setInsertRange x _ _).2 (Or.inr hx), rfl⟩

theorem sendLoop_pool {σ : Type} (E : Env σ) (ids : List Nat) (st st1 : Scheduler σ)
    (calls : List Call) (hrun : sendLoop E ids st = some (st1, calls)) :
    (∀ x ∈ st.m_downloadQueue, x ∈ st1.m_downloadQueue) ∧
    st1.m_lostPiecesQueue = st.m_lostPiecesQueue := by
  induction ids generalizing st st1 calls with
  | nil =>
    simp only [sendLoop, Option.some.injEq, Prod.mk.injEq] at hrun
    rw [← hrun.1]; exact ⟨fun x hx => hx, rfl⟩
  | cons sessId rest ih =>
    unfold sendLoop at hrun
    split at hrun
    · cases hrun
    · rename_i st2 res calls2 hsend
      split at hrun
      · cases hrun
      · rename_i st3 calls3 hrest
        simp only [Option.some.injEq, Prod.mk.injEq] at hrun
        rw [← hrun.1]
        obtain ⟨h1, h2⟩ := DoSendSessionSubTask_pool E st st2 sessId res calls2 hsend
        obtain ⟨h3, h4⟩ := ih st2 st3 calls3 hrest
        exact ⟨fun x hx => h3 x (h1 x hx), h4.trans h2⟩

theorem distributeLoop_keeps {σ : Type} (E : Env σ) (toSend : List (Nat × Nat))
    (sortmmap : List (Int × σ)) (dq : List Int) (q : List (Nat × List Int))
    (dtm : List (Int × Nat)) (dq1 : List Int) (q1 : List (Nat × List Int)) (x : Int)
    (hx : x ∈ dq ∨ ∃ k s, mapFind q k = some s ∧ x ∈ s)
    (hrun : distributeLoop E toSend sortmmap dq q dtm = some (dq1, q1)) :
    x ∈ dq1 ∨ ∃ k s, mapFind q1 k = some s ∧ x ∈ s := by
  induction sortmmap generalizing dq q dtm with
  | nil =>
    simp only [distributeLoop, Option.some.injEq, Prod.mk.injEq] at hrun
    rw [← hrun.1, ← hrun.2]; exact hx
  | cons e rest ih =>
    obtain ⟨curr_duration, sessStream⟩ := e
    unfold distributeLoop at hrun
    dsimp only at hrun
    split at hrun
    · exact ih dq q dtm hx hrun
    · split at hrun
      · exact ih dq q dtm hx hrun
      · split at hrun
        · cases hrun
        · rename_i cnt _ _ itr _
          refine ih _ _ _ ?_ hrun
          have hfind := mapFind_queueInsert q (E.GetSessionId sessStream)
            ((dq.drop itr).take cnt) (E.GetSessionId sessStream)
          rw [if_pos rfl] at hfind
          rcases hx with hx | ⟨k, s, hk, hxs⟩
          · rcases (mem_take_drop_split dq itr cnt x).1 hx with hx | hx
            · exact Or.inl hx
            · exact Or.inr ⟨_, _, hfind, (mem_setInsertRange x _ _).2 (Or.inl hx)⟩
          · by_cases hkk : k = E.GetSessionId sessStream
            · refine Or.inr ⟨_, _, hfind, (mem_setInsertRange x _ _).2 (Or.inr ?_)⟩
              rw [← hkk, hk]; exact hxs
            · refine Or.inr ⟨k, s, ?_, hxs⟩
              rw [mapFind_queueInsert, if_neg hkk]; exact hk

theorem mem_requestPieces {σ : Type} (E : Env σ) (dq : List Int) (need : Nat) (x : Int)
    (hx : x ∈ dq) : x ∈ (requestPieces E dq need).1 := by
  unfold requestPieces
  split_ifs
  · split
    · exact (mem_setInsertRange x _ _).2 (Or.inr hx)
    · exact hx
  · exact hx

/-- C4 as stated fails. With no session tracked the pass returns at once: after
`OnTimedOut(1, [3])` and `DoMultiPathSchedule` the piece 3 is still in the lost queue and
not in the download queue. With sessions tracked, the piece -1 reported lost is requeued,
handed to session 1 and sent: after the pass it is not in the download queue. -/
theorem C4_lost_piece_not_in_pool :
    (3 : Int) ∉ untrackedState.m_downloadQueue ∧ (3 : Int) ∉ untrackedState.m_lostPiecesQueue ∧
    DoMultiPathSchedule simEnv (OnTimedOut untrackedState 1 [3]) =
      some ({ untrackedState with m_lostPiecesQueue := [3] }, []) ∧
    (-1 : Int) ∉ skipState.m_downloadQueue ∧ (-1 : Int) ∉ skipState.m_lostPiecesQueue ∧
    (∀ e ∈ skipState.m_session_needdownloadpieceQ, (-1 : Int) ∉ e.2) ∧
    (DoMultiPathSchedule simEnv (OnTimedOut skipState 1 [-1])).map
        (fun r => (r.1.m_downloadQueue, r.1.m_lostPiecesQueue, sentBatches r.2)) =
      some ([5, 6, 7, 8, 9], [], [(1, [-1, 0, 1, 2]), (2, [3, 4])]) := by
  decide

theorem mem_mmEmplace {V : Type} (d : Int) (v : V) (l : List (Int × V)) (x : Int × V) :
    x ∈ mmEmplace d v l ↔ x = (d, v) ∨ x ∈ l := by
  induction l with
  | nil => simp [mmEmplace]
  | cons e rest ih =>
    obtain ⟨k, w⟩ := e
    unfold mmEmplace
    split_ifs
    · simp
    · simp only [List.mem_cons, ih]; tauto

theorem sortSessionLoop_defined {σ : Type} (E : Env σ) (table : List (Nat × Option σ))
    (acc : List (Int × σ)) (hlive : ∀ e ∈ table, e.2 ≠ none) :
    ∃ m, sortSessionLoop E table acc = some m ∧
      ∀ x ∈ m, x ∈ acc ∨ ∃ e ∈ table, e.2 = some x.2 ∧ x.1 = E.GetRtt x.2 := by
  induction table generalizing acc with
  | nil => exact ⟨acc, rfl, fun x hx => Or.inl hx⟩
  | cons t rest ih =>
    obtain ⟨k, s⟩ := t
    cases s with
    | none => exact absurd rfl (hlive (k, none) (List.mem_cons_self _ _))
    | some s =>
      obtain ⟨m, hm, hmem⟩ := ih (mmEmplace (E.GetRtt s) s acc)
        (fun e he => hlive e (List.mem_cons_of_mem _ he))
      refine ⟨m, by simpa [sortSessionLoop] using hm, ?_⟩
      intro x hx
      rcases hmem x hx with h | ⟨e, he, h⟩
      · rcases (mem_mmEmplace _ _ _ _).1 h with h | h
        · right
          refine ⟨(k, some s), List.mem_cons_self _ _, ?_⟩
          rw [h]; exact ⟨rfl, rfl⟩
        · exact Or.inl h
      · exact Or.inr ⟨e, List.mem_cons_of_mem _ he, h⟩

theorem mapFind_mapEmplace_isSome {V : Type} (m : List (Nat × V)) (k : Nat) (v : V) (k1 : Nat)
    (c : V) (h : mapFind (mapEmplace m k v) k1 = some c) :
    k1 = k ∨ ∃ c0, mapFind m k1 = some c0 := by
  induction m with
  | nil =>
    simp only [mapEmplace, mapFind] at h
    split_ifs at h with hk
    · exact Or.inl hk
  | cons e rest ih =>
    obtain ⟨a, w⟩ := e
    unfold mapEmplace at h
    split_ifs at h with h1 h2
    · unfold mapFind at h
      split_ifs at h with hk
      · exact Or.inl hk
      · exact Or.inr ⟨c, h⟩
    · exact Or.inr ⟨c, h⟩
    · unfold mapFind at h
      split_ifs at h with hk
      · right; exact ⟨w, by simp [mapFind, hk]⟩
      · rcases ih h with h | ⟨c0, h⟩
        · exact Or.inl h
        · right; exact ⟨c0, by simp [mapFind, hk, h]⟩

theorem surveyLoop_defined {σ : Type} (E : Env σ) (table : List (Nat × Option σ))
    (acc : List (Nat × Nat)) (hlive : ∀ e ∈ table, e.2 ≠ none) :
    ∃ toSend, surveyLoop E table acc = some toSend ∧
      ∀ k c, mapFind toSend k = some c →
        (∃ c0, mapFind acc k = some c0) ∨ ∃ e ∈ table, e.1 = k := by
  induction table generalizing acc with
  | nil => exact ⟨acc, rfl, fun k c h => Or.inl ⟨c, h⟩⟩
  | cons t rest ih =>
    obtain ⟨k, s⟩ := t
    cases s with
    | none => exact absurd rfl (hlive (k, none) (List.mem_cons_self _ _))
    | some s =>
      obtain ⟨m, hm, hmem⟩ := ih (mapEmplace acc k (E.CanRequestPktCnt s))
        (fun e he => hlive e (List.mem_cons_of_mem _ he))
      refine ⟨m, by simpa [surveyLoop] using hm, ?_⟩
      intro k1 c hk1
      rcases hmem k1 c hk1 with ⟨c0, h⟩ | ⟨e, he, h⟩
      · rcases mapFind_mapEmplace_isSome _ _ _ _ _ h with h | h
        · exact Or.inr ⟨(k, some s), List.mem_cons_self _ _, h.symm⟩
        · exact Or.inl h
      · exact Or.inr ⟨e, List.mem_cons_of_mem _ he, h⟩

theorem advanceCursor_defined (len : Nat) (curr_duration : Int) (dtm : List (Int × Nat))
    (itr : Nat) (h : ∀ e ∈ dtm, toInt (ToMilliseconds e.1) ≠ 0) :
    ∃ i, advanceCursor len curr_duration dtm itr = some i := by
  induction dtm generalizing itr with
  | nil => exact ⟨itr, rfl⟩
  | cons e rest ih =>
    obtain ⟨former, tasknum⟩ := e
    have h0 : toInt (ToMilliseconds former) ≠ 0 := h (former, tasknum) (List.mem_cons_self _ _)
    unfold advanceCursor
    dsimp only
    rw [if_neg h0]
    split_ifs
    · exact ⟨_, rfl⟩
    · exact ih _ (fun e he => h e (List.mem_cons_of_mem _ he))
    · exact ⟨_, rfl⟩

theorem mapFind_live {σ : Type} (table : List (Nat × Option σ)) (k : Nat)
    (hlive : ∀ e ∈ table, e.2 ≠ none) (hk : ∃ e ∈ table, e.1 = k) :
    ∃ s, mapFind table k = some (some s) := by
  induction table with
  | nil => obtain ⟨e, he, -⟩ := hk; simp at he
  | cons t rest ih =>
    obtain ⟨a, s⟩ := t
    unfold mapFind
    split_ifs with hka
    · cases s with
      | none => exact absurd rfl (hlive (a, none) (List.mem_cons_self _ _))
      | some s => exact ⟨s, rfl⟩
    · apply ih (fun e he => hlive e (List.mem_cons_of_mem _ he))
      obtain ⟨e, he, hek⟩ := hk
      rcases List.mem_cons.1 he with h | h
      · rw [h] at hek; exact absurd hek.symm hka
      · exact ⟨e, h, hek⟩

theorem distributeLoop_defined {σ : Type} (E : Env σ) (toSend : List (Nat × Nat))
    (sortmmap : List (Int × σ)) (dq : List Int) (q : List (Nat × List Int))
    (dtm : List (Int × Nat))
    (hs : ∀ x ∈ sortmmap, toInt (ToMilliseconds x.1) ≠ 0)
    (hd : ∀ e ∈ dtm, toInt (ToMilliseconds e.1) ≠ 0) :
    ∃ dq1 q1, distributeLoop E toSend sortmmap dq q dtm = some (dq1, q1) ∧
      ∀ k s, mapFind q1 k = some s → s ≠ [] →
        (∃ s0, mapFind q k = some s0 ∧ s0 ≠ []) ∨ ∃ c, mapFind toSend k = some c := by
  induction sortmmap generalizing dq q dtm with
  | nil => exact ⟨dq, q, rfl, fun k s hk hne => Or.inl ⟨s, hk, hne⟩⟩
  | cons e rest ih =>
    obtain ⟨curr_duration, sessStream⟩ := e
    have hs1 : ∀ x ∈ rest, toInt (ToMilliseconds x.1) ≠ 0 :=
      fun x hx => hs x (List.mem_cons_of_mem _ hx)
    have hc : toInt (ToMilliseconds curr_duration) ≠ 0 :=
      hs (curr_duration, sessStream) (List.mem_cons_self _ _)
    unfold distributeLoop
    dsimp only
    split
    · exact ih dq q dtm hs1 hd
    · split
      · exact ih dq q dtm hs1 hd
      · rename_i cnt hcnt
        obtain ⟨itr, hitr⟩ := advanceCursor_defined dq.length curr_duration dtm 0 hd
        rw [hitr]
        dsimp only
        obtain ⟨dq1, q1, hrun, hq1⟩ := ih
          (dq.take itr ++ (dq.drop itr).drop cnt)
          (queueInsert q (E.GetSessionId sessStream) ((dq.drop itr).take cnt))
          (mmEmplace curr_duration (cnt - ((dq.drop itr).take cnt).length) dtm) hs1
          (fun e he => by
            rcases (mem_mmEmplace _ _ _ _).1 he with h | h
            · rw [h]; exact hc
            · exact hd e h)
        refine ⟨dq1, q1, hrun, ?_⟩
        intro k s hk hne
        rcases hq1 k s hk hne with ⟨s0, h0, hne0⟩ | h
        · by_cases hkk : k = E.GetSessionId sessStream
          · right; rw [hkk]; exact ⟨cnt, hcnt⟩
          · left
            rw [mapFind_queueInsert, if_neg hkk] at h0
            exact ⟨s0, h0, hne0⟩
        · exact Or.inr h

theorem DoSendSessionSubTask_live {σ : Type} (E : Env σ) (st : Scheduler σ) (sessionid : Nat)
    (h : ∀ k s, mapFind st.m_session_needdownloadpieceQ k = some s → s ≠ [] →
      ∃ sess, mapFind st.m_dlsessionmap k = some (some sess)) :
    ∃ st1 res calls, DoSendSessionSubTask E st sessionid = some (st1, res, calls) ∧
      ∀ k s, mapFind st1.m_session_needdownloadpieceQ k = some s → s ≠ [] →
        ∃ sess, mapFind st1.m_dlsessionmap k = some (some sess) := by
  unfold DoSendSessionSubTask
  split
  · refine ⟨_, _, _, rfl, ?_⟩
    intro k s hk hne
    dsimp only at hk
    rw [mapFind_mapAssign] at hk
    split_ifs at hk with hkk
    · cases hk; exact absurd rfl hne
    · exact h k s hk hne
  · rename_i q hq
    split_ifs with hemp
    · exact ⟨_, _, _, rfl, h⟩
    · have hne : q ≠ [] := by
        intro hq0; rw [hq0] at hemp; simp at hemp
      obtain ⟨sess, hsess⟩ := h sessionid q hq hne
      rw [hsess]
      dsimp only
      have hkeep : ∀ (s1 : σ) (rem : List Int) k s,
          mapFind (mapAssign st.m_session_needdownloadpieceQ sessionid rem) k = some s →
          s ≠ [] →
          ∃ sess1, mapFind (mapAssign st.m_dlsessionmap sessionid (some s1)) k =
            some (some sess1) := by
        intro s1 rem k s hk hne1
        rw [mapFind_mapAssign] at hk
        rw [mapFind_mapAssign]
        split_ifs at hk ⊢ with hkk
        · exact ⟨s1, rfl⟩
        · exact h k s hk hne1
      split_ifs
      · exact ⟨_, _, _, rfl, hkeep _ _⟩
      · exact ⟨_, _, _, rfl, hkeep _ _⟩

theorem sendLoop_defined {σ : Type} (E : Env σ) (ids : List Nat) (st : Scheduler σ)
    (h : ∀ k s, mapFind st.m_session_needdownloadpieceQ k = some s → s ≠ [] →
      ∃ sess, mapFind st.m_dlsessionmap k = some (some sess)) :
    ∃ r, sendLoop E ids st = some r := by
  induction ids generalizing st with
  | nil => exact ⟨_, rfl⟩
  | cons sessId rest ih =>
    obtain ⟨st1, res, calls, hsend, h1⟩ := DoSendSessionSubTask_live E st sessId h
    obtain ⟨r, hr⟩ := ih st1 h1
    obtain ⟨st2, calls2⟩ := r
    unfold sendLoop
    rw [hsend]
    dsimp only
    rw [hr]
    exact ⟨_, rfl⟩

theorem DoMultiPathSchedule_defined {σ : Type} (E : Env σ) (st : Scheduler σ)
    (hlive : SessionsLive E st) : ∃ st1 calls, DoMultiPathSchedule E st = some (st1, calls) := by
  obtain ⟨htab, hq⟩ := hlive
  have hnonnull : ∀ e ∈ st.m_dlsessionmap, e.2 ≠ none := by
    intro e he hnone
    obtain ⟨s, hs, -⟩ := htab e he
    rw [hs] at hnone; cases hnone
  unfold DoMultiPathSchedule
  split_ifs
  · exact ⟨_, _, rfl⟩
  · obtain ⟨m, hm, hmem⟩ := sortSessionLoop_defined E st.m_dlsessionmap [] hnonnull
    have hsort : SortSession E st = some { st with m_sortmmap := m } := by
      unfold SortSession; rw [hm]; rfl
    rw [hsort]
    dsimp only
    obtain ⟨toSend, hsurvey, hkeys⟩ := surveyLoop_defined E st.m_dlsessionmap [] hnonnull
    have hms : ∀ x ∈ m, toInt (ToMilliseconds x.1) ≠ 0 := by
      intro x hx
      rcases hmem x hx with h | ⟨e, he, h1, h2⟩
      · simp at h
      · obtain ⟨s, hs, hrtt⟩ := htab e he
        rw [h1] at hs
        cases hs
        rw [h2]; exact hrtt
    obtain ⟨dq1, q1, hdist, hq1⟩ := distributeLoop_defined E toSend m
      (requestPieces E (setInsertRange st.m_lostPiecesQueue st.m_downloadQueue)
        (totalSubpieceCnt toSend)).1 st.m_session_needdownloadpieceQ [] hms
      (fun e he => by simp at he)
    have hfd : fillDistribute E { st with m_sortmmap := m } =
        some ({ st with m_sortmmap := m, m_downloadQueue := dq1, m_lostPiecesQueue := [],
                        m_session_needdownloadpieceQ := q1 },
          (requestPieces E (setInsertRange st.m_lostPiecesQueue st.m_downloadQueue)
            (totalSubpieceCnt toSend)).2) := by
      unfold fillDistribute
      simp only [requeueLost, hsurvey, hdist]
    obtain ⟨r, hr⟩ := sendLoop_defined E (q1.map Prod.fst)
      { st with m_sortmmap := m, m_downloadQueue := dq1, m_lostPiecesQueue := [],
                m_session_needdownloadpieceQ := q1 }
      (by
        intro k s hk hne
        rcases hq1 k s hk hne with ⟨s0, h0, hne0⟩ | ⟨c, hc⟩
        · exact hq (k, s0) (mem_of_mapFind _ k s0 h0) hne0
        · rcases hkeys k c hc with ⟨c0, h0⟩ | h0
          · simp [mapFind] at h0
          · exact mapFind_live st.m_dlsessionmap k hnonnull h0)
    obtain ⟨st2, calls2⟩ := r
    unfold FillUpSessionTask
    rw [hfd]
    dsimp only
    rw [hr]
    exact ⟨_, _, rfl⟩

theorem requestedCounts_DoSinglePathSchedule {σ : Type} (E : Env σ) (st : Scheduler σ)
    (h : Nat → List Int) (hh : E.handler = some h) (sessionid : Nat) :
    (DoSinglePathSchedule E st sessionid).map (fun r => requestedCounts r.2.2) =
      some (match mapFind st.m_dlsessionmap sessionid with
        | some (some session) =>
          if st.m_downloadQueue.length < E.CanRequestPktCnt session then
            [E.CanRequestPktCnt session - st.m_downloadQueue.length]
          else []
        | _ => []) := by
  unfold DoSinglePathSchedule
  rcases hl : mapFind st.m_dlsessionmap sessionid with _ | _ | session
  · rfl
  · rfl
  · dsimp only
    by_cases hc : E.CanRequestPktCnt session = 0
    · rw [if_pos hc, hc]; simp [requestedCounts]
    · rw [if_neg hc]
      obtain ⟨r, hr⟩ := DoSendSessionSubTask_defined E
        (singlePathAssign { st with m_downloadQueue :=
          (requestPieces E st.m_downloadQueue (E.CanRequestPktCnt session)).1 } sessionid
          (E.CanRequestPktCnt session)) sessionid session hl
      obtain ⟨st2, res, calls⟩ := r
      rw [hr]
      simp only [Option.map_some', Option.some.injEq, requestedCounts_append,
        requestedCounts_DoSendSessionSubTask E _ _ _ _ _ hr, List.append_nil]
      exact requestedCounts_requestPieces E h hh _ _

theorem requestedCounts_DoMultiPathSchedule {σ : Type} (E : Env σ) (st st1 : Scheduler σ)
    (h : Nat → List Int) (hh : E.handler = some h) (calls : List Call)
    (hne : st.m_session_needdownloadpieceQ ≠ [])
    (hkeys : st.m_dlsessionmap.Pairwise (fun a b => a.1 < b.1))
    (hsum : tableCapacity E st.m_dlsessionmap < 4294967296)
    (hrun : DoMultiPathSchedule E st = some (st1, calls)) :
    requestedCounts calls =
      if (setInsertRange st.m_lostPiecesQueue st.m_downloadQueue).length <
          tableCapacity E st.m_dlsessionmap then
        [tableCapacity E st.m_dlsessionmap -
          (setInsertRange st.m_lostPiecesQueue st.m_downloadQueue).length]
      else [] := by
  unfold DoMultiPathSchedule at hrun
  have hemp : st.m_session_needdownloadpieceQ.isEmpty = false := by
    cases hq : st.m_session_needdownloadpieceQ with
    | nil => exact absurd hq hne
    | cons e rest => rfl
  rw [hemp] at hrun
  simp only [Bool.false_eq_true, if_false] at hrun
  split at hrun
  · cases hrun
  · rename_i st0 hsort
    obtain ⟨htab, hdq, hlost, -⟩ := SortSession_fields E st st0 hsort
    unfold FillUpSessionTask fillDistribute at hrun
    simp only [requeueLost, htab, hdq, hlost] at hrun
    split at hrun
    · cases hrun
    · rename_i st2 calls2 hfd
      split at hfd
      · cases hfd
      · rename_i toSend hsurvey
        split at hfd
        · cases hfd
        · rename_i dq q hdist
          simp only [Option.some.injEq, Prod.mk.injEq] at hfd
          split at hrun
          · cases hrun
          · rename_i st3 calls3 hsend
            simp only [Option.some.injEq, Prod.mk.injEq] at hrun
            have htotal : totalSubpieceCnt toSend = tableCapacity E st.m_dlsessionmap := by
              unfold totalSubpieceCnt
              rw [foldl_add_snd, surveyLoop_sum E _ [] toSend hkeys (by simp) hsurvey]
              simp only [List.map_nil, List.sum_nil, zero_add]
              exact Nat.mod_eq_of_lt hsum
            rw [← hrun.2, ← hfd.2, requestedCounts_append,
              requestedCounts_sendLoop E _ _ _ _ hsend, List.append_nil, htotal]
            exact requestedCounts_requestPieces E h hh _ _

/-- C6 amended: with a live handler, `DoSinglePathSchedule` calls `OnRequestDownloadPieces`
exactly once, with `C - |download queue|`, when the session is known and its capacity `C`
exceeds the size of the download queue, and not at all otherwise. `DoMultiPathSchedule`,
when at least one session is tracked, the sessions are live and the sum `T` of the
capacities of the sessions of the table is below `2^32`, returns and calls it exactly
once, with `T - |pool|`, when `T` exceeds the size of the download queue after the lost
pieces have been requeued, and not at all otherwise. -/
theorem C6_backpressure {σ : Type} (E : Env σ) (st : Scheduler σ) (h : Nat → List Int)
    (hh : E.handler = some h) :
    (∀ sessionid, (DoSinglePathSchedule E st sessionid).map (fun r => requestedCounts r.2.2) =
      some (match mapFind st.m_dlsessionmap sessionid with
        | some (some session) =>
          if st.m_downloadQueue.length < E.CanRequestPktCnt session then
            [E.CanRequestPktCnt session - st.m_downloadQueue.length]
          else []
        | _ => [])) ∧
    (st.m_session_needdownloadpieceQ ≠ [] →
      st.m_dlsessionmap.Pairwise (fun a b => a.1 < b.1) →
      tableCapacity E st.m_dlsessionmap < 4294967296 →
      SessionsLive E st →
      ∃ st1 calls, DoMultiPathSchedule E st = some (st1, calls) ∧
        requestedCounts calls =
          if (setInsertRange st.m_lostPiecesQueue st.m_downloadQueue).length <
              tableCapacity E st.m_dlsessionmap then
            [tableCapacity E st.m_dlsessionmap -
              (setInsertRange st.m_lostPiecesQueue st.m_downloadQueue).length]
          else []) := by
  refine ⟨requestedCounts_DoSinglePathSchedule E st h hh, ?_⟩
  intro hne hkeys hsum hlive
  obtain ⟨st1, calls, hrun⟩ := DoMultiPathSchedule_defined E st hlive
  exact ⟨st1, calls, hrun,
    requestedCounts_DoMultiPathSchedule E st st1 h hh calls hne hkeys hsum hrun⟩

theorem shortState_live : SessionsLive simEnv shortState := by
  constructor
  · intro e he
    simp only [shortState, List.mem_cons, List.mem_singleton, List.not_mem_nil, or_false] at he
    rcases he with rfl | rfl
    · exact ⟨_, rfl, by decide⟩
    · exact ⟨_, rfl, by decide⟩
  · intro e he hne
    simp only [shortState, List.mem_cons, List.mem_singleton, List.not_mem_nil, or_false] at he
    rcases he with rfl | rfl <;> exact absurd rfl hne

/-- C6 amended, at a concrete state: windows 4 and 2, download queue 0, 1, lost queue 5:
the global pass asks once for 6 - 3 = 3 pieces and the single-path pass on session 1 once
for 4 - 2 = 2 pieces. -/
theorem C6_backpressure_witness :
    simEnv.handler = some (fun _ => []) ∧
    (DoSinglePathSchedule simEnv shortState 1).map (fun r => requestedCounts r.2.2) = some [2] ∧
    ∃ st1 calls, DoMultiPathSchedule simEnv shortState = some (st1, calls) ∧
      requestedCounts calls = [3] :=
  ⟨rfl, (C6_backpressure simEnv shortState (fun _ => []) rfl).1 1,
    (C6_backpressure simEnv shortState (fun _ => []) rfl).2 (by decide) (by decide) (by decide)
      shortState_live⟩

theorem loss_round_trip_of_run {σ : Type} (E : Env σ) (st st1 : Scheduler σ) (sessionid : Nat)
    (P : Int) (calls : List Call) (htracked : st.m_session_needdownloadpieceQ ≠ [])
    (hrun : DoMultiPathSchedule E (OnTimedOut st sessionid [P]) = some (st1, calls)) :
    P ∈ (OnTimedOut st sessionid [P]).m_lostPiecesQueue ∧
    P ∈ (requeueLost (OnTimedOut st sessionid [P])).m_downloadQueue ∧
    (requeueLost (OnTimedOut st sessionid [P])).m_lostPiecesQueue = [] ∧
    st1.m_lostPiecesQueue = [] ∧
    ∃ stS stD callsD, SortSession E (OnTimedOut st sessionid [P]) = some stS ∧
      fillDistribute E stS = some (stD, callsD) ∧
      (P ∈ stD.m_downloadQueue ∨
        ∃ k s, mapFind stD.m_session_needdownloadpieceQ k = some s ∧ P ∈ s) ∧
      (P ∈ stD.m_downloadQueue → P ∈ st1.m_downloadQueue) := by
  have hlost : P ∈ (OnTimedOut st sessionid [P]).m_lostPiecesQueue :=
    (mem_setInsertRange P [P] _).2 (Or.inl (List.mem_singleton_self P))
  have hreq : P ∈ (requeueLost (OnTimedOut st sessionid [P])).m_downloadQueue :=
    (mem_setInsertRange P _ _).2 (Or.inl hlost)
  refine ⟨hlost, hreq, rfl, ?_⟩
  unfold DoMultiPathSchedule at hrun
  have hemp : (OnTimedOut st sessionid [P]).m_session_needdownloadpieceQ.isEmpty = false := by
    show st.m_session_needdownloadpieceQ.isEmpty = false
    cases hq : st.m_session_needdownloadpieceQ with
    | nil => exact absurd hq htracked
    | cons e rest => rfl
  rw [hemp] at hrun
  simp only [Bool.false_eq_true, if_false] at hrun
  split at hrun
  · cases hrun
  · rename_i stS hsort
    obtain ⟨htab, hdq, hlostS, hq⟩ := SortSession_fields E _ stS hsort
    unfold FillUpSessionTask at hrun
    split at hrun
    · cases hrun
    · rename_i stD callsD hfd
      split at hrun
      · cases hrun
      · rename_i st3 calls3 hsend
        simp only [Option.some.injEq, Prod.mk.injEq] at hrun
        obtain ⟨hpool, hl⟩ := sendLoop_pool E _ stD st3 calls3 hsend
        have hfd0 := hfd
        unfold fillDistribute at hfd
        dsimp only at hfd
        split at hfd
        · cases hfd
        · rename_i toSend hsurvey
          split at hfd
          · cases hfd
          · rename_i dq q hdist
            simp only [Option.some.injEq, Prod.mk.injEq] at hfd
            have hP : P ∈ (requestPieces E (requeueLost stS).m_downloadQueue
                (totalSubpieceCnt toSend)).1 := by
              apply mem_requestPieces
              simp only [requeueLost, hdq, hlostS]
              exact hreq
            have hkeep := distributeLoop_keeps E toSend _ _ _ _ dq q P (Or.inl hP) hdist
            refine ⟨?_, stS, stD, callsD, hsort, hfd0, ?_, ?_⟩
            · rw [← hrun.1, hl, ← hfd.1]; rfl
            · rw [← hfd.1]; exact hkeep
            · intro hPd
              rw [← hrun.1]; exact hpool P hPd

theorem SessionsLive_OnTimedOut {σ : Type} (E : Env σ) (st : Scheduler σ) (sessionid : Nat)
    (pns : List Int) (h : SessionsLive E st) : SessionsLive E (OnTimedOut st sessionid pns) :=
  h

/-- C4 amended: after `OnTimedOut(s, [P])` the lost queue contains `P`. When at least one
session is tracked and the sessions are live, the next `DoMultiPathSchedule` returns; its
requeue step puts `P` into the download queue and clears the lost queue, after the pass
the lost queue is empty, and `P` is in the download queue at the end of the pass unless
the distribution step moved it into a session queue. -/
theorem C4_loss_round_trip {σ : Type} (E : Env σ) (st : Scheduler σ) (sessionid : Nat)
    (P : Int) (htracked : st.m_session_needdownloadpieceQ ≠ []) (hlive : SessionsLive E st) :
    P ∈ (OnTimedOut st sessionid [P]).m_lostPiecesQueue ∧
    P ∈ (requeueLost (OnTimedOut st sessionid [P])).m_downloadQueue ∧
    (requeueLost (OnTimedOut st sessionid [P])).m_lostPiecesQueue = [] ∧
    ∃ st1 calls, DoMultiPathSchedule E (OnTimedOut st sessionid [P]) = some (st1, calls) ∧
      st1.m_lostPiecesQueue = [] ∧ P ∉ st1.m_lostPiecesQueue ∧
      ∃ stS stD callsD, SortSession E (OnTimedOut st sessionid [P]) = some stS ∧
        fillDistribute E stS = some (stD, callsD) ∧
        (P ∈ stD.m_downloadQueue ∨
          ∃ k s, mapFind stD.m_session_needdownloadpieceQ k = some s ∧ P ∈ s) ∧
        (P ∈ stD.m_downloadQueue → P ∈ st1.m_downloadQueue) := by
  obtain ⟨st1, calls, hrun⟩ := DoMultiPathSchedule_defined E (OnTimedOut st sessionid [P])
    (SessionsLive_OnTimedOut E st sessionid [P] hlive)
  obtain ⟨h1, h2, h3, h4, h5⟩ := loss_round_trip_of_run E st st1 sessionid P calls htracked hrun
  refine ⟨h1, h2, h3, st1, calls, hrun, h4, ?_, h5⟩
  rw [h4]; exact List.not_mem_nil P

theorem skipState_live : SessionsLive simEnv skipState := by
  constructor
  · intro e he
    simp only [skipState, List.mem_cons, List.mem_singleton, List.not_mem_nil, or_false] at he
    rcases he with rfl | rfl
    · exact ⟨_, rfl, by decide⟩
    · exact ⟨_, rfl, by decide⟩
  · intro e he hne
    simp only [skipState, List.mem_cons, List.mem_singleton, List.not_mem_nil, or_false] at he
    rcases he with rfl | rfl <;> exact absurd rfl hne

/-- C4 amended, at a concrete state: sessions 1 and 2 tracked, the piece 20 reported lost;
after the pass the lost queue is empty and 20 is in the download queue. -/
theorem C4_loss_round_trip_witness :
    skipState.m_session_needdownloadpieceQ ≠ [] ∧
    (DoMultiPathSchedule simEnv (OnTimedOut skipState 1 [20])).map
        (fun r => (r.1.m_downloadQueue, r.1.m_lostPiecesQueue)) =
      some ([6, 7, 8, 9, 20], []) ∧
    (20 : Int) ∈ (OnTimedOut skipState 1 [20]).m_lostPiecesQueue ∧
    ∃ st1 calls, DoMultiPathSchedule simEnv (OnTimedOut skipState 1 [20]) = some (st1, calls) ∧
      st1.m_lostPiecesQueue = [] :=
  ⟨by decide, by decide, (C4_loss_round_trip simEnv skipState 1 20 (by decide) skipState_live).1,
    (C4_loss_round_trip simEnv skipState 1 20 (by decide) skipState_live).2.2.2.elim
      fun st1 h => h.elim fun calls h => ⟨st1, calls, h.1, h.2.1⟩⟩

/-- C11: `OnResetDownload` applied twice gives the state that one application gives. -/
theorem C11_reset_idempotent {σ : Type} (st : Scheduler σ) :
    OnResetDownload (OnResetDownload st) = OnResetDownload st := by
  unfold OnResetDownload
  cases hq : st.m_session_needdownloadpieceQ with
  | nil => simp [hq]
  | cons e rest => simp

/-- C12: `OnSessionCreate(id)` for an id that has a queue `q` leaves exactly the pieces of
the old download queue and of `q` in the download queue; for an id without a queue it
leaves the download queue as it is. In both cases the id has an empty queue afterwards,
and the other sessions' queues, the lost queue, the session table and the ranking are
unchanged. -/
theorem C12_create_drains {σ : Type} (st : Scheduler σ) (sessionid : Nat) :
    (∀ q, mapFind st.m_session_needdownloadpieceQ sessionid = some q →
      ∀ x, x ∈ (OnSessionCreate st sessionid).m_downloadQueue ↔
        x ∈ st.m_downloadQueue ∨ x ∈ q) ∧
    (mapFind st.m_session_needdownloadpieceQ sessionid = none →
      (OnSessionCreate st sessionid).m_downloadQueue = st.m_downloadQueue) ∧
    mapFind (OnSessionCreate st sessionid).m_session_needdownloadpieceQ sessionid = some [] ∧
    (∀ k, k ≠ sessionid →
      mapFind (OnSessionCreate st sessionid).m_session_needdownloadpieceQ k =
        mapFind st.m_session_needdownloadpieceQ k) ∧
    (OnSessionCreate st sessionid).m_lostPiecesQueue = st.m_lostPiecesQueue ∧
    (OnSessionCreate st sessionid).m_dlsessionmap = st.m_dlsessionmap ∧
    (OnSessionCreate st sessionid).m_sortmmap = st.m_sortmmap := by
  unfold OnSessionCreate
  cases hq : mapFind st.m_session_needdownloadpieceQ sessionid with
  | none =>
    dsimp only
    refine ⟨?_, ?_, ?_, ?_, rfl, rfl, rfl⟩
    · intro q h; cases h
    · intro _; rfl
    · rw [mapFind_mapAssign, if_pos rfl]
    · intro k hk; rw [mapFind_mapAssign, if_neg hk]
  | some q0 =>
    dsimp only
    refine ⟨?_, ?_, ?_, ?_, rfl, rfl, rfl⟩
    · intro q h x
      cases h
      rw [mem_setInsertRange]
      tauto
    · intro h; cases h
    · rw [mapFind_mapAssign, if_pos rfl]
    · intro k hk; rw [mapFind_mapAssign, if_neg hk]

/-- C13: after `OnTimedOut(id, pns)` the lost queue holds exactly the pieces of the old
lost queue and of `pns`; the download queue, the session queues, the session table and
the ranking are unchanged. -/
theorem C13_timed_out_frame {σ : Type} (st : Scheduler σ) (sessionid : Nat) (pns : List Int) :
    (∀ x, x ∈ (OnTimedOut st sessionid pns).m_lostPiecesQueue ↔
      x ∈ st.m_lostPiecesQueue ∨ x ∈ pns) ∧
    (OnTimedOut st sessionid pns).m_downloadQueue = st.m_downloadQueue ∧
    (OnTimedOut st sessionid pns).m_session_needdownloadpieceQ =
      st.m_session_needdownloadpieceQ ∧
    (OnTimedOut st sessionid pns).m_dlsessionmap = st.m_dlsessionmap ∧
    (OnTimedOut st sessionid pns).m_sortmmap = st.m_sortmmap := by
  refine ⟨?_, rfl, rfl, rfl, rfl⟩
  intro x
  unfold OnTimedOut
  dsimp only
  rw [mem_setInsertRange]
  tauto

/-- C14: `OnSessionDestory(id)` for an id without an entry in the session queues returns
the state it was given. -/
theorem C14_destroy_unknown {σ : Type} (st : Scheduler σ) (sessionid : Nat)
    (h : mapFind st.m_session_needdownloadpieceQ sessionid = none) :
    OnSessionDestory st sessionid = st := by
  unfold OnSessionDestory
  rw [h]

/-- C14 at a concrete state: `destroyState` tracks the sessions 3 and 7, not 5. -/
theorem C14_destroy_unknown_witness :
    mapFind destroyState.m_session_needdownloadpieceQ 5 = none ∧
    OnSessionDestory destroyState 5 = destroyState :=
  ⟨by decide, C14_destroy_unknown destroyState 5 (by decide)⟩

/-- C17: when no session is tracked, `DoMultiPathSchedule` returns the state it was given
(download queue, lost queue, ranking, session table) and makes no call. -/
theorem C17_no_tracked_sessions {σ : Type} (E : Env σ) (st : Scheduler σ)
    (h : st.m_session_needdownloadpieceQ = []) :
    DoMultiPathSchedule E st = some (st, []) := by
  unfold DoMultiPathSchedule
  rw [h]
  rfl

/-- C17 at a concrete state: one session of window 5 in the table, the piece 3 in the
lost queue, no session tracked. -/
theorem C17_no_tracked_sessions_witness :
    (OnTimedOut untrackedState 1 [3]).m_session_needdownloadpieceQ = [] ∧
    (OnTimedOut untrackedState 1 [3]).m_lostPiecesQueue = [3] ∧
    (OnTimedOut untrackedState 1 [3]).m_dlsessionmap ≠ [] ∧
    DoMultiPathSchedule simEnv (OnTimedOut untrackedState 1 [3]) =
      some (OnTimedOut untrackedState 1 [3], []) :=
  ⟨rfl, by decide, by decide, C17_no_tracked_sessions simEnv _ rfl⟩

/-- C20: for a known session whose `CanRequestPktCnt()` is 0, `DoSinglePathSchedule`
returns the state it was given with status 4294967295 and makes no call, and so does
`OnReceiveSubpieceData`. -/
theorem C20_zero_capacity {σ : Type} (E : Env σ) (st : Scheduler σ) (sessionid : Nat)
    (session : σ) (hknown : mapFind st.m_dlsessionmap sessionid = some (some session))
    (hzero : E.CanRequestPktCnt session = 0) :
    DoSinglePathSchedule E st sessionid = some (st, 4294967295, []) ∧
    OnReceiveSubpieceData E st sessionid = some (st, []) := by
  have h1 : DoSinglePathSchedule E st sessionid = some (st, 4294967295, []) := by
    unfold DoSinglePathSchedule
    rw [hknown]
    dsimp only
    rw [if_pos hzero]
  refine ⟨h1, ?_⟩
  unfold OnReceiveSubpieceData
  rw [h1]
  rfl

/-- C20 at a concrete state: session 1 of `zeroWndQueuedState` has window 0 and holds the
pieces 4, 5. -/
theorem C20_zero_capacity_witness :
    mapFind zeroWndQueuedState.m_dlsessionmap 1 = some (some ⟨1, 10000, 0, true⟩) ∧
    simEnv.CanRequestPktCnt ⟨1, 10000, 0, true⟩ = 0 ∧
    mapFind zeroWndQueuedState.m_session_needdownloadpieceQ 1 = some [4, 5] ∧
    DoSinglePathSchedule simEnv zeroWndQueuedState 1 =
      some (zeroWndQueuedState, 4294967295, []) ∧
    OnReceiveSubpieceData simEnv zeroWndQueuedState 1 = some (zeroWndQueuedState, []) :=
  ⟨by decide, rfl, by decide,
    (C20_zero_capacity simEnv zeroWndQueuedState 1 ⟨1, 10000, 0, true⟩ (by decide) rfl).1,
    (C20_zero_capacity simEnv zeroWndQueuedState 1 ⟨1, 10000, 0, true⟩ (by decide) rfl).2⟩

/-- C19, the code at the failing input: session 5 is not in the session table of
`skipState`; `DoSinglePathSchedule(5)` returns 4294967295 without a call and leaves the
queues as they were, but the session table has the new entry 5 with a null session, and
the next `DoMultiPathSchedule` dereferences it. -/
theorem C19_unknown_session_leaves_null_entry :
    mapFind skipState.m_dlsessionmap 5 = none ∧
    DoSinglePathSchedule simEnv skipState 5 =
      some ({ skipState with
              m_dlsessionmap :=
                [(1, some ⟨1, 10000, 4, true⟩), (2, some ⟨2, 30000, 2, true⟩), (5, none)] },
            4294967295, []) ∧
    (DoSinglePathSchedule simEnv skipState 5).bind
      (fun r => DoMultiPathSchedule simEnv r.1) = none := by
  decide

theorem mmEmplace_perm {V : Type} (d : Int) (v : V) (l : List (Int × V)) :
    (mmEmplace d v l).Perm (l ++ [(d, v)]) := by
  induction l with
  | nil => simp [mmEmplace]
  | cons e rest ih =>
    obtain ⟨k, w⟩ := e
    unfold mmEmplace
    split_ifs
    · exact (List.perm_append_singleton (d, v) ((k, w) :: rest)).symm
    · exact List.Perm.cons _ ih

theorem mmEmplace_sorted {V : Type} (d : Int) (v : V) (l : List (Int × V))
    (h : l.Pairwise (fun a b => a.1 ≤ b.1)) :
    (mmEmplace d v l).Pairwise (fun a b => a.1 ≤ b.1) := by
  induction l with
  | nil => simp [mmEmplace]
  | cons e rest ih =>
    obtain ⟨k, w⟩ := e
    rw [List.pairwise_cons] at h
    unfold mmEmplace
    split_ifs with hd
    · refine List.pairwise_cons.2 ⟨?_, List.pairwise_cons.2 h⟩
      intro z hz
      rcases List.mem_cons.1 hz with rfl | hz
      · exact le_of_lt hd
      · exact le_trans (le_of_lt hd) (h.1 z hz)
    · refine List.pairwise_cons.2 ⟨?_, ih h.2⟩
      intro z hz
      rcases (mem_mmEmplace d v rest z).1 hz with rfl | hz
      · exact not_lt.1 hd
      · exact h.1 z hz

theorem mmEmplace_filter {V : Type} (d : Int) (v : V) (l : List (Int × V)) (d1 : Int)
    (h : l.Pairwise (fun a b => a.1 ≤ b.1)) :
    (mmEmplace d v l).filter (fun x => x.1 = d1) =
      l.filter (fun x => x.1 = d1) ++ [(d, v)].filter (fun x => x.1 = d1) := by
  induction l with
  | nil => simp [mmEmplace]
  | cons e rest ih =>
    obtain ⟨k, w⟩ := e
    rw [List.pairwise_cons] at h
    unfold mmEmplace
    split_ifs with hd
    · by_cases hdd : d = d1
      · have hnone : ((k, w) :: rest).filter (fun x => decide (x.1 = d1)) = [] := by
          rw [List.filter_eq_nil_iff]
          intro x hx
          have hk : k ≤ x.1 := by
            rcases List.mem_cons.1 hx with rfl | hx
            · exact le_refl _
            · exact h.1 x hx
          simp only [decide_eq_true_eq]
          omega
        rw [hnone, List.filter_cons, List.nil_append]
        simp only [hdd, decide_True, if_true, hnone, List.filter_cons, List.filter_nil]
      · rw [List.filter_cons]
        simp [hdd]
    · by_cases hk : k = d1
      · have e1 : ∀ l : List (Int × V), List.filter (fun x => decide (x.1 = d1)) ((k, w) :: l) =
            (k, w) :: List.filter (fun x => decide (x.1 = d1)) l := fun l => by
          simp [List.filter_cons, hk]
        rw [e1, e1, ih h.2, List.cons_append]
      · have e2 : ∀ l : List (Int × V), List.filter (fun x => decide (x.1 = d1)) ((k, w) :: l) =
            List.filter (fun x => decide (x.1 = d1)) l := fun l => by
          simp [List.filter_cons, hk]
        rw [e2, e2, ih h.2]

theorem sortSessionLoop_spec {σ : Type} (E : Env σ) (table : List (Nat × Option σ))
    (acc : List (Int × σ)) (hlive : ∀ e ∈ table, e.2 ≠ none)
    (hacc : acc.Pairwise (fun a b => a.1 ≤ b.1)) :
    ∃ m, sortSessionLoop E table acc = some m ∧
      m.Perm (acc ++ tablePairs E table) ∧
      m.Pairwise (fun a b => a.1 ≤ b.1) ∧
      ∀ d, m.filter (fun x => x.1 = d) =
        acc.filter (fun x => x.1 = d) ++ (tablePairs E table).filter (fun x => x.1 = d) := by
  induction table generalizing acc with
  | nil => exact ⟨acc, rfl, by simp [tablePairs], hacc, by simp [tablePairs]⟩
  | cons t rest ih =>
    obtain ⟨k, s⟩ := t
    cases s with
    | none => exact absurd rfl (hlive (k, none) (List.mem_cons_self _ _))
    | some s =>
      obtain ⟨m, hm, hperm, hsorted, hfilter⟩ := ih (mmEmplace (E.GetRtt s) s acc)
        (fun e he => hlive e (List.mem_cons_of_mem _ he)) (mmEmplace_sorted _ _ _ hacc)
      have hpairs : tablePairs E ((k, some s) :: rest) = (E.GetRtt s, s) :: tablePairs E rest := by
        simp [tablePairs]
      refine ⟨m, by simpa [sortSessionLoop] using hm, ?_, hsorted, ?_⟩
      · rw [hpairs]
        refine hperm.trans ?_
        have := List.Perm.append_right (tablePairs E rest) (mmEmplace_perm (E.GetRtt s) s acc)
        simpa using this
      · intro d
        rw [hfilter d, mmEmplace_filter _ _ _ _ hacc, hpairs, List.append_assoc,
          ← List.filter_append]
        rfl

theorem length_tablePairs {σ : Type} (E : Env σ) (table : List (Nat × Option σ))
    (hlive : ∀ e ∈ table, e.2 ≠ none) : (tablePairs E table).length = table.length := by
  induction table with
  | nil => rfl
  | cons t rest ih =>
    obtain ⟨k, s⟩ := t
    cases s with
    | none => exact absurd rfl (hlive (k, none) (List.mem_cons_self _ _))
    | some s =>
      have := ih (fun e he => hlive e (List.mem_cons_of_mem _ he))
      simp only [tablePairs] at this
      simp [tablePairs, this]

/-- C16: when no entry of the session table is null, `SortSession` returns and replaces
the ranking by a list `m` that holds exactly the (RTT, session) pairs of the sessions of
the table, one per table entry, in non-decreasing order of RTT; for every RTT `d` the
entries of `m` with RTT `d` are the table's sessions with RTT `d` in the iteration order
of the table. Nothing else of the state changes. -/
theorem C16_sort_session_stable {σ : Type} (E : Env σ) (st : Scheduler σ)
    (hlive : ∀ e ∈ st.m_dlsessionmap, e.2 ≠ none) :
    ∃ m, SortSession E st = some { st with m_sortmmap := m } ∧
      m.Perm (tablePairs E st.m_dlsessionmap) ∧
      m.length = st.m_dlsessionmap.length ∧
      m.Pairwise (fun a b => a.1 ≤ b.1) ∧
      ∀ d, m.filter (fun x => x.1 = d) =
        (tablePairs E st.m_dlsessionmap).filter (fun x => x.1 = d) := by
  obtain ⟨m, hm, hperm, hsorted, hfilter⟩ :=
    sortSessionLoop_spec E st.m_dlsessionmap [] hlive List.Pairwise.nil
  refine ⟨m, ?_, by simpa using hperm, ?_, hsorted, ?_⟩
  · unfold SortSession
    rw [hm]
    rfl
  · rw [← length_tablePairs E st.m_dlsessionmap hlive]
    exact List.Perm.length_eq (by simpa using hperm)
  · intro d
    simpa using hfilter d

/-- C16 at a concrete state: sessions 1 and 3 have RTT 30 ms, sessions 2 and 4 have RTT
10 ms, and the ranking holds an old entry; afterwards the ranking is 2, 4, 1, 3. -/
theorem C16_sort_session_stable_witness :
    (∀ e ∈ tieState.m_dlsessionmap, e.2 ≠ none) ∧
    SortSession simEnv tieState =
      some { tieState with
             m_sortmmap :=
               [(10000, ⟨2, 10000, 1, true⟩), (10000, ⟨4, 10000, 1, true⟩),
                (30000, ⟨1, 30000, 1, true⟩), (30000, ⟨3, 30000, 1, true⟩)] } ∧
    ∃ m, SortSession simEnv tieState = some { tieState with m_sortmmap := m } ∧
      m.length = 4 ∧ m.Pairwise (fun a b => a.1 ≤ b.1) :=
  ⟨by decide, by decide,
    (C16_sort_session_stable simEnv tieState (by decide)).elim
      fun m h => ⟨m, h.1, h.2.2.1, h.2.2.2.1⟩⟩

theorem advanceCursor_zero (len : Nat) (curr_duration : Int) (dtm : List (Int × Nat))
    (h : len = 0 ∨ ∀ e ∈ dtm, e.2 = 0)
    (hms : ∀ e ∈ dtm, 1 ≤ toInt (ToMilliseconds e.1)) :
    advanceCursor len curr_duration dtm 0 = some 0 := by
  induction dtm with
  | nil => rfl
  | cons e rest ih =>
    obtain ⟨former, tasknum⟩ := e
    have h0 : toInt (ToMilliseconds former) ≠ 0 := by
      have := hms (former, tasknum) (List.mem_cons_self _ _)
      dsimp only at this
      omega
    have hrest := ih
      (h.imp id (fun hz e he => hz e (List.mem_cons_of_mem _ he)))
      (fun e he => hms e (List.mem_cons_of_mem _ he))
    unfold advanceCursor
    dsimp only
    rw [if_neg h0]
    split_ifs with hskip hend
    · rcases h with hlen | hz
      · subst hlen; simp
      · have hb : tasknum = 0 := hz (former, tasknum) (List.mem_cons_self _ _)
        subst hb
        simp [toInt]
    · rcases h with hlen | hz
      · subst hlen; simp at hend
      · have hb : tasknum = 0 := hz (former, tasknum) (List.mem_cons_self _ _)
        subst hb
        have hitr : min len (0 + (toInt ((Int.tdiv (toInt (ToMilliseconds curr_duration))
            (toInt (ToMilliseconds former)) - 1) * toInt ((0 : Nat) : Int))).toNat) = 0 := by
          simp [toInt]
        rw [hitr]
        exact hrest
    · rfl

theorem leftover_invariant (dq : List Int) (dtm : List (Int × Nat)) (cur : Int) (c : Nat)
    (h : dq = [] ∨ ∀ e ∈ dtm, e.2 = 0) :
    dq.drop c = [] ∨ ∀ e ∈ mmEmplace cur (c - (dq.take c).length) dtm, e.2 = 0 := by
  rcases h with h | h
  · left; rw [h]; simp
  · by_cases hc : c ≤ dq.length
    · right
      intro e he
      rcases (mem_mmEmplace _ _ _ _).1 he with he | he
      · rw [he]
        simp only [List.length_take]
        omega
      · exact h e he
    · left
      exact List.drop_eq_nil_of_le (by omega)

theorem distributeLoop_eq_greedyFill {σ : Type} (E : Env σ) (toSend : List (Nat × Nat))
    (sortmmap : List (Int × σ)) (dq : List Int) (q : List (Nat × List Int))
    (dtm : List (Int × Nat))
    (hrtt : ∀ x ∈ sortmmap, 1 ≤ toInt (ToMilliseconds x.1))
    (hinv : dq = [] ∨ ∀ e ∈ dtm, e.2 = 0)
    (hms : ∀ e ∈ dtm, 1 ≤ toInt (ToMilliseconds e.1)) :
    distributeLoop E toSend sortmmap dq q dtm = some (greedyFill E toSend sortmmap dq q) := by
  induction sortmmap generalizing dq q dtm with
  | nil => rfl
  | cons e rest ih =>
    obtain ⟨curr_duration, sessStream⟩ := e
    have hrest : ∀ x ∈ rest, 1 ≤ toInt (ToMilliseconds x.1) :=
      fun x hx => hrtt x (List.mem_cons_of_mem _ hx)
    have hcur : 1 ≤ toInt (ToMilliseconds curr_duration) :=
      hrtt (curr_duration, sessStream) (List.mem_cons_self _ _)
    unfold distributeLoop greedyFill
    dsimp only
    cases hq : mapFind q (E.GetSessionId sessStream) with
    | none => exact ih dq q dtm hrest hinv hms
    | some s =>
      cases hc : mapFind toSend (E.GetSessionId sessStream) with
      | none => exact ih dq q dtm hrest hinv hms
      | some c =>
        dsimp only
        have hlen : dq.length = 0 ∨ ∀ e ∈ dtm, e.2 = 0 :=
          hinv.imp (fun h => by rw [h]; rfl) id
        rw [advanceCursor_zero dq.length curr_duration dtm hlen hms]
        dsimp only
        simp only [List.drop_zero, List.take_zero, List.nil_append]
        refine ih _ _ _ hrest (leftover_invariant dq dtm curr_duration c hinv) ?_
        intro e he
        rcases (mem_mmEmplace _ _ _ _).1 he with he | he
        · rw [he]; exact hcur
        · exact hms e he

/-- C15: when every ranked session's RTT, in the milliseconds the code computes, is at
least 1, the distribution loop of `FillUpSessionTask` gives the result of the naive
greedy fill. The reason: as long as the download queue is empty or every recorded
leftover is 0, the cursor stays at the front of the download queue (second part), and
each step of the loop keeps that condition (third part). -/
theorem C15_skip_never_skips {σ : Type} (E : Env σ) (toSend : List (Nat × Nat))
    (sortmmap : List (Int × σ)) (dq : List Int) (q : List (Nat × List Int))
    (hrtt : ∀ x ∈ sortmmap, 1 ≤ toInt (ToMilliseconds x.1)) :
    distributeLoop E toSend sortmmap dq q [] = some (greedyFill E toSend sortmmap dq q) ∧
    (∀ (pool : List Int) (dtm : List (Int × Nat)) (cur : Int),
      (pool = [] ∨ ∀ e ∈ dtm, e.2 = 0) →
      (∀ e ∈ dtm, 1 ≤ toInt (ToMilliseconds e.1)) →
      advanceCursor pool.length cur dtm 0 = some 0) ∧
    (∀ (pool : List Int) (dtm : List (Int × Nat)) (cur : Int) (c : Nat),
      (pool = [] ∨ ∀ e ∈ dtm, e.2 = 0) →
      (pool.drop c = [] ∨ ∀ e ∈ mmEmplace cur (c - (pool.take c).length) dtm, e.2 = 0)) := by
  refine ⟨?_, ?_, ?_⟩
  · exact distributeLoop_eq_greedyFill E toSend sortmmap dq q [] hrtt
      (Or.inr (fun e he => by simp at he)) (fun e he => by simp at he)
  · intro pool dtm cur hinv hms
    exact advanceCursor_zero pool.length cur dtm (hinv.imp (fun h => by rw [h]; rfl) id) hms
  · intro pool dtm cur c hinv
    exact leftover_invariant pool dtm cur c hinv

/-- C15 at a concrete input: RTT 10 ms with capacity 4, then RTT 30 ms with capacity 2,
download queue 0..9: both the distribution loop and the greedy fill give 0, 1, 2, 3 to
session 1 and 4, 5 to session 2. -/
theorem C15_skip_never_skips_witness :
    (∀ x ∈ [((10000 : Int), (⟨1, 10000, 4, true⟩ : SimSession)), (30000, ⟨2, 30000, 2, true⟩)],
      1 ≤ toInt (ToMilliseconds x.1)) ∧
    greedyFill simEnv [(1, 4), (2, 2)]
        [(10000, ⟨1, 10000, 4, true⟩), (30000, ⟨2, 30000, 2, true⟩)]
        [0, 1, 2, 3, 4, 5, 6, 7, 8, 9] [(1, []), (2, [])] =
      ([6, 7, 8, 9], [(1, [0, 1, 2, 3]), (2, [4, 5])]) ∧
    distributeLoop simEnv [(1, 4), (2, 2)]
        [(10000, ⟨1, 10000, 4, true⟩), (30000, ⟨2, 30000, 2, true⟩)]
        [0, 1, 2, 3, 4, 5, 6, 7, 8, 9] [(1, []), (2, [])] [] =
      some (greedyFill simEnv [(1, 4), (2, 2)]
        [(10000, ⟨1, 10000, 4, true⟩), (30000, ⟨2, 30000, 2, true⟩)]
        [0, 1, 2, 3, 4, 5, 6, 7, 8, 9] [(1, []), (2, [])]) :=
  ⟨by decide, by decide,
    (C15_skip_never_skips simEnv [(1, 4), (2, 2)]
      [(10000, ⟨1, 10000, 4, true⟩), (30000, ⟨2, 30000, 2, true⟩)]
      [0, 1, 2, 3, 4, 5, 6, 7, 8, 9] [(1, []), (2, [])] (by decide)).1⟩

theorem sentIds_append (a b : List Call) : sentIds (a ++ b) = sentIds a ++ sentIds b := by
  induction a with
  | nil => rfl
  | cons c rest ih => cases c <;> simp [sentIds, ih]

theorem requestPieces_nothing {σ : Type} (E : Env σ) (dq : List Int) (need : Nat)
    (hnothing : ∀ h, E.handler = some h → ∀ n, h n = []) :
    (requestPieces E dq need).1 = dq ∧ sentIds (requestPieces E dq need).2 = [] := by
  unfold requestPieces
  split_ifs
  · cases hh : E.handler with
    | none => exact ⟨rfl, rfl⟩
    | some h =>
      dsimp only
      rw [hnothing h hh]
      exact ⟨rfl, rfl⟩
  · exact ⟨rfl, rfl⟩

theorem distributeLoop_back {σ : Type} (E : Env σ) (toSend : List (Nat × Nat))
    (sortmmap : List (Int × σ)) (dq : List Int) (q : List (Nat × List Int))
    (dtm : List (Int × Nat)) (dq1 : List Int) (q1 : List (Nat × List Int)) (x : Int)
    (hx : x ∈ dq1 ∨ ∃ k s, mapFind q1 k = some s ∧ x ∈ s)
    (hrun : distributeLoop E toSend sortmmap dq q dtm = some (dq1, q1)) :
    x ∈ dq ∨ ∃ k s, mapFind q k = some s ∧ x ∈ s := by
  induction sortmmap generalizing dq q dtm with
  | nil =>
    simp only [distributeLoop, Option.some.injEq, Prod.mk.injEq] at hrun
    rw [hrun.1, hrun.2]; exact hx
  | cons e rest ih =>
    obtain ⟨curr_duration, sessStream⟩ := e
    unfold distributeLoop at hrun
    dsimp only at hrun
    split at hrun
    · exact ih dq q dtm hrun
    · rename_i s0 hs0
      split at hrun
      · exact ih dq q dtm hrun
      · split at hrun
        · cases hrun
        · rename_i cnt _ _ itr _
          rcases ih _ _ _ hrun with h | ⟨k, s, hk, hxs⟩
          · exact Or.inl ((mem_take_drop_split dq itr cnt x).2 (Or.inl h))
          · rw [mapFind_queueInsert] at hk
            split_ifs at hk with hkk
            · cases hk
              rcases (mem_setInsertRange x _ _).1 hxs with h | h
              · exact Or.inl ((mem_take_drop_split dq itr cnt x).2 (Or.inr h))
              · rw [hs0] at h
                exact Or.inr ⟨_, s0, hs0, h⟩
            · exact Or.inr ⟨k, s, hk, hxs⟩

theorem DoSendSessionSubTask_conserve {σ : Type} (E : Env σ) (st st1 : Scheduler σ)
    (sessionid : Nat) (res : Int) (calls : List Call)
    (hok : ∀ s sid pieces, (E.DoRequestdata s sid pieces).1 = true)
    (h : QueuesInv st.m_downloadQueue st.m_lostPiecesQueue st.m_session_needdownloadpieceQ)
    (hrun : DoSendSessionSubTask E st sessionid = some (st1, res, calls)) :
    st1.m_downloadQueue = st.m_downloadQueue ∧
    st1.m_lostPiecesQueue = st.m_lostPiecesQueue ∧
    (∀ x, (∃ k s, mapFind st.m_session_needdownloadpieceQ k = some s ∧ x ∈ s) ↔
      ((∃ k s, mapFind st1.m_session_needdownloadpieceQ k = some s ∧ x ∈ s) ∨
        x ∈ sentIds calls)) ∧
    (∀ x ∈ sentIds calls,
      ¬ ∃ k s, mapFind st1.m_session_needdownloadpieceQ k = some s ∧ x ∈ s) ∧
    (sentIds calls).Nodup := by
  unfold DoSendSessionSubTask at hrun
  split at hrun
  · rename_i hq
    simp only [Option.some.injEq, Prod.mk.injEq] at hrun
    obtain ⟨h1, -, h3⟩ := hrun
    subst h1 h3
    refine ⟨rfl, rfl, ?_, ?_, List.nodup_nil⟩
    · intro x
      simp only [sentIds, List.not_mem_nil, or_false]
      constructor
      · rintro ⟨k, s, hk, hx⟩
        refine ⟨k, s, ?_, hx⟩
        rw [mapFind_mapAssign]
        split_ifs with hkk
        · rw [hkk, hq] at hk; cases hk
        · exact hk
      · rintro ⟨k, s, hk, hx⟩
        rw [mapFind_mapAssign] at hk
        split_ifs at hk with hkk
        · cases hk; simp at hx
        · exact ⟨k, s, hk, hx⟩
    · intro x hx; simp [sentIds] at hx
  · rename_i q hq
    split_ifs at hrun
    · simp only [Option.some.injEq, Prod.mk.injEq] at hrun
      obtain ⟨h1, -, h3⟩ := hrun
      subst h1 h3
      exact ⟨rfl, rfl, fun x => by simp [sentIds], fun x hx => by simp [sentIds] at hx,
        List.nodup_nil⟩
    · split at hrun
      · cases hrun
      · cases hrun
      · rename_i session hs
        dsimp only at hrun
        rw [hok, if_pos rfl] at hrun
        simp only [Option.some.injEq, Prod.mk.injEq] at hrun
        obtain ⟨h1, -, h3⟩ := hrun
        subst h1 h3
        obtain ⟨-, -, -, h4, -, -, h7⟩ := h
        have hasc := h4 sessionid q hq
        have hlt := take_lt_drop q (E.CanRequestPktCnt session) hasc
        have hsplit : ∀ x, x ∈ q ↔ x ∈ q.take (E.CanRequestPktCnt session) ∨
            x ∈ q.drop (E.CanRequestPktCnt session) := by
          intro x
          conv_lhs => rw [← List.take_append_drop (E.CanRequestPktCnt session) q]
          exact List.mem_append
        refine ⟨rfl, rfl, ?_, ?_, ?_⟩
        · intro x
          simp only [sentIds, List.append_nil]
          constructor
          · rintro ⟨k, s, hk, hx⟩
            by_cases hkk : k = sessionid
            · rw [hkk, hq] at hk
              cases hk
              rcases (hsplit x).1 hx with hx | hx
              · exact Or.inr hx
              · exact Or.inl ⟨sessionid, _, by rw [mapFind_mapAssign, if_pos rfl], hx⟩
            · exact Or.inl ⟨k, s, by rw [mapFind_mapAssign, if_neg hkk]; exact hk, hx⟩
          · rintro (⟨k, s, hk, hx⟩ | hx)
            · rw [mapFind_mapAssign] at hk
              split_ifs at hk with hkk
              · cases hk
                exact ⟨sessionid, q, hq, (hsplit x).2 (Or.inr hx)⟩
              · exact ⟨k, s, hk, hx⟩
            · exact ⟨sessionid, q, hq, (hsplit x).2 (Or.inl hx)⟩
        · intro x hx
          simp only [sentIds, List.append_nil] at hx
          rintro ⟨k, s, hk, hxs⟩
          rw [mapFind_mapAssign] at hk
          split_ifs at hk with hkk
          · cases hk
            exact lt_irrefl x (hlt x hx x hxs)
          · exact h7 sessionid k q s (fun h => hkk h.symm) hq hk x ((hsplit x).2 (Or.inl hx)) hxs
        · simp only [sentIds, List.append_nil]
          exact nodup_of_ascending _ (List.Pairwise.sublist (List.take_sublist _ _) hasc)

theorem sendLoop_conserve {σ : Type} (E : Env σ) (ids : List Nat) (st st1 : Scheduler σ)
    (calls : List Call)
    (hok : ∀ s sid pieces, (E.DoRequestdata s sid pieces).1 = true)
    (h : QueuesInv st.m_downloadQueue st.m_lostPiecesQueue st.m_session_needdownloadpieceQ)
    (hrun : sendLoop E ids st = some (st1, calls)) :
    st1.m_downloadQueue = st.m_downloadQueue ∧
    st1.m_lostPiecesQueue = st.m_lostPiecesQueue ∧
    (∀ x, (∃ k s, mapFind st.m_session_needdownloadpieceQ k = some s ∧ x ∈ s) ↔
      ((∃ k s, mapFind st1.m_session_needdownloadpieceQ k = some s ∧ x ∈ s) ∨
        x ∈ sentIds calls)) ∧
    (∀ x ∈ sentIds calls,
      ¬ ∃ k s, mapFind st1.m_session_needdownloadpieceQ k = some s ∧ x ∈ s) ∧
    (sentIds calls).Nodup := by
  induction ids generalizing st st1 calls with
  | nil =>
    simp only [sendLoop, Option.some.injEq, Prod.mk.injEq] at hrun
    obtain ⟨h1, h2⟩ := hrun
    subst h1 h2
    exact ⟨rfl, rfl, fun x => by simp [sentIds], fun x hx => by simp [sentIds] at hx,
      List.nodup_nil⟩
  | cons sessId rest ih =>
    unfold sendLoop at hrun
    split at hrun
    · cases hrun
    · rename_i st2 res calls2 hsend
      split at hrun
      · cases hrun
      · rename_i st3 calls3 hrest
        simp only [Option.some.injEq, Prod.mk.injEq] at hrun
        obtain ⟨h1, h2⟩ := hrun
        subst h1 h2
        obtain ⟨a1, a2, a3, a4, a5⟩ :=
          DoSendSessionSubTask_conserve E st st2 sessId res calls2 hok h hsend
        obtain ⟨b1, b2, b3, b4, b5⟩ := ih st2 st3 calls3
          (inv_DoSendSessionSubTask E st st2 sessId res calls2 hok h hsend) hrest
        refine ⟨b1.trans a1, b2.trans a2, ?_, ?_, ?_⟩
        · intro x
          rw [a3 x, b3 x, sentIds_append, List.mem_append]
          constructor
          · rintro ((h | h) | h)
            · exact Or.inl h
            · exact Or.inr (Or.inr h)
            · exact Or.inr (Or.inl h)
          · rintro (h | h | h)
            · exact Or.inl (Or.inl h)
            · exact Or.inr h
            · exact Or.inl (Or.inr h)
        · intro x hx
          rw [sentIds_append, List.mem_append] at hx
          rcases hx with hx | hx
          · intro hq3
            exact a4 x hx ((b3 x).2 (Or.inl hq3))
          · exact b4 x hx
        · rw [sentIds_append]
          refine List.Nodup.append a5 b5 ?_
          intro x hx2 hx3
          exact a4 x hx2 ((b3 x).2 (Or.inr hx3))

theorem DoMultiPathSchedule_steps {σ : Type} (E : Env σ) (st st1 : Scheduler σ)
    (calls : List Call) (hne : st.m_session_needdownloadpieceQ ≠ [])
    (hrun : DoMultiPathSchedule E st = some (st1, calls)) :
    ∃ m toSend dq1 q1 calls3,
      SortSession E st = some { st with m_sortmmap := m } ∧
      surveyLoop E st.m_dlsessionmap [] = some toSend ∧
      distributeLoop E toSend m
        (requestPieces E (setInsertRange st.m_lostPiecesQueue st.m_downloadQueue)
          (totalSubpieceCnt toSend)).1 st.m_session_needdownloadpieceQ [] = some (dq1, q1) ∧
      sendLoop E (q1.map Prod.fst)
        { st with m_sortmmap := m, m_downloadQueue := dq1, m_lostPiecesQueue := [],
                  m_session_needdownloadpieceQ := q1 } = some (st1, calls3) ∧
      calls = (requestPieces E (setInsertRange st.m_lostPiecesQueue st.m_downloadQueue)
        (totalSubpieceCnt toSend)).2 ++ calls3 := by
  unfold DoMultiPathSchedule at hrun
  have hemp : st.m_session_needdownloadpieceQ.isEmpty = false := by
    cases hq : st.m_session_needdownloadpieceQ with
    | nil => exact absurd hq hne
    | cons e rest => rfl
  rw [hemp] at hrun
  simp only [Bool.false_eq_true, if_false] at hrun
  unfold SortSession at hrun ⊢
  cases hm : sortSessionLoop E st.m_dlsessionmap [] with
  | none => rw [hm] at hrun; simp at hrun
  | some m =>
    rw [hm] at hrun
    simp only [Option.map_some'] at hrun
    unfold FillUpSessionTask fillDistribute at hrun
    simp only [requeueLost] at hrun
    cases hsurvey : surveyLoop E st.m_dlsessionmap [] with
    | none => rw [hsurvey] at hrun; simp at hrun
    | some toSend =>
      rw [hsurvey] at hrun
      dsimp only at hrun
      cases hdist : distributeLoop E toSend m
          (requestPieces E (setInsertRange st.m_lostPiecesQueue st.m_downloadQueue)
            (totalSubpieceCnt toSend)).1 st.m_session_needdownloadpieceQ [] with
      | none => rw [hdist] at hrun; simp at hrun
      | some r =>
        obtain ⟨dq1, q1⟩ := r
        rw [hdist] at hrun
        dsimp only at hrun
        cases hsend : sendLoop E (q1.map Prod.fst)
            { st with m_sortmmap := m, m_downloadQueue := dq1, m_lostPiecesQueue := [],
                      m_session_needdownloadpieceQ := q1 } with
        | none => rw [hsend] at hrun; simp at hrun
        | some r2 =>
          obtain ⟨st3, calls3⟩ := r2
          rw [hsend] at hrun
          simp only [Option.some.injEq, Prod.mk.injEq] at hrun
          refine ⟨m, toSend, dq1, q1, calls3, rfl, rfl, hdist, ?_, hrun.2.symm⟩
          rw [← hrun.1]
          exact hsend

/-- C18 as stated fails: no session is tracked and the piece 3 is in the lost queue; the
containers share no piece, every send would succeed and the handler adds nothing, yet
after `DoMultiPathSchedule` the lost queue still holds 3, which is in no download queue,
session queue or batch. -/
theorem C18_untracked_ledger_stays :
    WellFormed (OnTimedOut untrackedState 1 [3]) ∧ Disjoint (OnTimedOut untrackedState 1 [3]) ∧
    (OnTimedOut untrackedState 1 [3]).m_session_needdownloadpieceQ = [] ∧
    okEnv.handler.map (fun h => h 5) = some [] ∧
    DoMultiPathSchedule okEnv (OnTimedOut untrackedState 1 [3]) =
      some ({ untrackedState with m_lostPiecesQueue := [3] }, []) := by
  decide

/-- C18 amended: for a well-formed state whose containers share no piece, in which at
least one session is tracked and the sessions are live (no null entry in the session
table, no RTT of 0 ms, every session with a non-empty queue in the table), when every
`DoRequestdata` succeeds and the handler adds nothing, `DoMultiPathSchedule` returns; the
lost queue is empty afterwards; the pieces that are in the download queue, in a session
queue or in a sent batch afterwards are exactly the pieces that were in the download
queue, the lost queue or a session queue before; and no piece is in two of them: the
containers of the new state share no piece, a sent piece is in no container, and no piece
was sent twice. -/
theorem C18_conservation {σ : Type} (E : Env σ) (st : Scheduler σ)
    (hwf : WellFormed st) (hdisj : Disjoint st)
    (htracked : st.m_session_needdownloadpieceQ ≠ []) (hlive : SessionsLive E st)
    (hok : ∀ s sid pieces, (E.DoRequestdata s sid pieces).1 = true)
    (hnothing : ∀ h, E.handler = some h → ∀ n, h n = []) :
    ∃ st1 calls, DoMultiPathSchedule E st = some (st1, calls) ∧
      st1.m_lostPiecesQueue = [] ∧
      (∀ x, (x ∈ st.m_downloadQueue ∨ x ∈ st.m_lostPiecesQueue ∨
            ∃ e ∈ st.m_session_needdownloadpieceQ, x ∈ e.2) ↔
          (x ∈ st1.m_downloadQueue ∨ (∃ e ∈ st1.m_session_needdownloadpieceQ, x ∈ e.2) ∨
            x ∈ sentIds calls)) ∧
      Disjoint st1 ∧
      (∀ x ∈ sentIds calls,
        x ∉ st1.m_downloadQueue ∧ ∀ e ∈ st1.m_session_needdownloadpieceQ, x ∉ e.2) ∧
      (sentIds calls).Nodup := by
  obtain ⟨st1, calls, hrun⟩ := DoMultiPathSchedule_defined E st hlive
  obtain ⟨m, toSend, dq1, q1, calls3, -, -, hdist, hsend, hcalls⟩ :=
    DoMultiPathSchedule_steps E st st1 calls htracked hrun
  obtain ⟨hreq1, hreq2⟩ := requestPieces_nothing E
    (setInsertRange st.m_lostPiecesQueue st.m_downloadQueue) (totalSubpieceCnt toSend) hnothing
  rw [hreq1] at hdist
  have hsent : sentIds calls = sentIds calls3 := by
    rw [hcalls, sentIds_append, hreq2, List.nil_append]
  have h0 := inv_of_wf_disjoint st hwf hdisj
  have h1 := inv_requeue _ _ _ h0
  have h2 := inv_distributeLoop E toSend m _ [] _ [] dq1 q1 h1 hdist
  obtain ⟨c1, c2, c3, c4, c5⟩ := sendLoop_conserve E _ _ st1 calls3 hok h2 hsend
  obtain ⟨h3, h3t⟩ := inv_sendLoop E _ _ st1 calls3 hok h2 (by exact hwf.2.2.2.2) hsend
  obtain ⟨-, hdisj1⟩ := wf_disjoint_of_inv st1 h3 h3t
  have hkeys0 := hwf.2.2.1
  have hkeys1 := h3.2.2.1
  have conv0 : ∀ x, (∃ e ∈ st.m_session_needdownloadpieceQ, x ∈ e.2) ↔
      ∃ k s, mapFind st.m_session_needdownloadpieceQ k = some s ∧ x ∈ s := by
    intro x
    constructor
    · rintro ⟨e, he, hx⟩
      exact ⟨e.1, e.2, mapFind_of_mem _ e.1 e.2 hkeys0 he, hx⟩
    · rintro ⟨k, s, hk, hx⟩
      exact ⟨(k, s), mem_of_mapFind _ k s hk, hx⟩
  have conv1 : ∀ x, (∃ e ∈ st1.m_session_needdownloadpieceQ, x ∈ e.2) ↔
      ∃ k s, mapFind st1.m_session_needdownloadpieceQ k = some s ∧ x ∈ s := by
    intro x
    constructor
    · rintro ⟨e, he, hx⟩
      exact ⟨e.1, e.2, mapFind_of_mem _ e.1 e.2 hkeys1 he, hx⟩
    · rintro ⟨k, s, hk, hx⟩
      exact ⟨(k, s), mem_of_mapFind _ k s hk, hx⟩
  have hdistr : ∀ x, (x ∈ setInsertRange st.m_lostPiecesQueue st.m_downloadQueue ∨
        ∃ k s, mapFind st.m_session_needdownloadpieceQ k = some s ∧ x ∈ s) ↔
      (x ∈ dq1 ∨ ∃ k s, mapFind q1 k = some s ∧ x ∈ s) := fun x =>
    ⟨fun h => distributeLoop_keeps E toSend m _ _ [] dq1 q1 x h hdist,
      fun h => distributeLoop_back E toSend m _ _ [] dq1 q1 x h hdist⟩
  refine ⟨st1, calls, hrun, c2, ?_, hdisj1, ?_, ?_⟩
  · intro x
    rw [conv0 x, conv1 x, hsent, c1, ← c3 x, ← hdistr x, mem_setInsertRange]
    tauto
  · intro x hx
    rw [hsent] at hx
    have hq1 : ∃ k s, mapFind q1 k = some s ∧ x ∈ s := (c3 x).2 (Or.inr hx)
    obtain ⟨k, s, hk, hxs⟩ := hq1
    refine ⟨?_, ?_⟩
    · rw [c1]
      exact (h2.2.2.2.2.2.1 k s hk x hxs).1
    · intro e he hxe
      exact c4 x hx ((conv1 x).1 ⟨e, he, hxe⟩)
  · rw [hsent]; exact c5

theorem okEnv_live_shortState : SessionsLive okEnv shortState := by
  constructor
  · intro e he
    simp only [shortState, List.mem_cons, List.mem_singleton, List.not_mem_nil, or_false] at he
    rcases he with rfl | rfl
    · exact ⟨_, rfl, by decide⟩
    · exact ⟨_, rfl, by decide⟩
  · intro e he hne
    simp only [shortState, List.mem_cons, List.mem_singleton, List.not_mem_nil, or_false] at he
    rcases he with rfl | rfl <;> exact absurd rfl hne

/-- C18 amended, at a concrete state: windows 4 and 2, download queue 0, 1, lost queue 5;
the pass sends 0, 1, 5 to session 1 and leaves every container empty. -/
theorem C18_conservation_witness :
    WellFormed shortState ∧ Disjoint shortState ∧
    shortState.m_session_needdownloadpieceQ ≠ [] ∧
    (DoMultiPathSchedule okEnv shortState).map
        (fun r => (r.1.m_downloadQueue, r.1.m_lostPiecesQueue, sentBatches r.2)) =
      some ([], [], [(1, [0, 1, 5])]) ∧
    (DoMultiPathSchedule okEnv shortState).map (fun r => r.1.m_session_needdownloadpieceQ) =
      some [(1, []), (2, [])] ∧
    ∃ st1 calls, DoMultiPathSchedule okEnv shortState = some (st1, calls) ∧
      st1.m_lostPiecesQueue = [] ∧ Disjoint st1 ∧ (sentIds calls).Nodup :=
  ⟨by decide, by decide, by decide, by decide, by decide,
    (C18_conservation okEnv shortState (by decide) (by decide) (by decide)
      okEnv_live_shortState (fun _ _ _ => rfl)
      (fun h hh n => by
        simp only [okEnv, Option.some.injEq] at hh
        rw [← hh])).elim
      fun st1 h => h.elim fun calls h => ⟨st1, calls, h.1, h.2.1, h.2.2.2.1, h.2.2.2.2.2⟩⟩

end RRMultiPathScheduler
